import Mathlib

/-!
Shallow embedding of the `nt-apiset` crate (Windows API Set Map decoder).

The byte buffer of the `.apiset` PE section is modelled as a `List UInt8`.
All integer fields of the binary format are little-endian u32 values, read
into `Nat` (each read is `< 2 ^ 32` by construction).  The Rust `usize`
arithmetic of the host is 64-bit; the only places where the source performs
overflow-checked `usize` arithmetic (`checked_mul` / `checked_add` in the
iterators' `nth`) are modelled with an explicit `2 ^ 64` bound.  Fallible
operations return `Except NtApiSetError` exactly like the crate's `Result`.
-/

deriving instance DecidableEq for Except

namespace NtApiSet

/-- Modulus of the wrapping 32-bit arithmetic used by the hash function. -/
def U32MOD : Nat := 4294967296

/-- Modulus of the host's 64-bit `usize` arithmetic. -/
def USIZEMOD : Nat := 18446744073709551616

/-- Byte buffer: the raw bytes of the `.apiset` section. -/
abbrev Bytes := List UInt8

/-- Little-endian u32 read at byte offset `off`, as zerocopy's
`U32<LittleEndian>` getter does.  Reads beyond the end yield byte 0; every
use in the embedding is guarded by the same in-bounds checks the source
performs before constructing a record view. -/
def readU32 (bs : Bytes) (off : Nat) : Nat :=
  (bs.getD off 0).toNat + 256 * (bs.getD (off + 1) 0).toNat +
    65536 * (bs.getD (off + 2) 0).toNat + 16777216 * (bs.getD (off + 3) 0).toNat

/-- Model of Rust `slice.get(start..stop)`: a subslice exactly when
`start ≤ stop` and `stop ≤ len`. -/
def sliceGet (bs : Bytes) (start stop : Nat) : Option Bytes :=
  if start ≤ stop ∧ stop ≤ bs.length then some ((bs.drop start).take (stop - start))
  else none

/-- Rust `usize::checked_mul` on a 64-bit host. -/
def checkedMul (a b : Nat) : Option Nat :=
  if a * b < USIZEMOD then some (a * b) else none

/-- Rust `usize::checked_add` on a 64-bit host. -/
def checkedAdd (a b : Nat) : Option Nat :=
  if a + b < USIZEMOD then some (a + b) else none

/-- Error taxonomy of `src/error.rs` (`NtApiSetError`).  Rust `Range<usize>`
payloads are modelled as a pair of `Nat` bounds (start, stop). -/
inductive NtApiSetError where
  | ApiSetSectionNotFound
  | ApiSetSectionOutOfBounds
  | EntryNameOutOfBounds (name_range_start name_range_stop entry_offset actual : Nat)
  | HashEntriesOutOfBounds (range_start range_stop actual : Nat)
  | InvalidMapHeaderSize (expected actual : Nat)
  | NamespaceEntriesOutOfBounds (range_start range_stop actual : Nat)
  | UnsupportedVersion (version : Nat)
  | ValueEntriesOutOfBounds (range_start range_stop actual : Nat)
deriving DecidableEq

/-- Fields of `ApiSetMapHeader` (`src/map.rs`), 28 bytes, all u32 LE. -/
structure ApiSetMapHeader where
  version : Nat
  size : Nat
  flags : Nat
  count : Nat
  namespace_entry_offset : Nat
  hash_entry_offset : Nat
  hash_factor : Nat
deriving DecidableEq

/-- Parse of the map header from the front of the section buffer
(`LayoutVerified::new_unaligned_from_prefix`): succeeds iff at least 28
bytes are available. -/
def parseMapHeader (bs : Bytes) : Option ApiSetMapHeader :=
  if 28 ≤ bs.length then
    some { version := readU32 bs 0, size := readU32 bs 4, flags := readU32 bs 8,
           count := readU32 bs 12, namespace_entry_offset := readU32 bs 16,
           hash_entry_offset := readU32 bs 20, hash_factor := readU32 bs 24 }
  else none

/-- Fields of `ApiSetHashEntryHeader` (`src/hash_entry.rs`), 8 bytes. -/
structure ApiSetHashEntryHeader where
  hash : Nat
  index : Nat
deriving DecidableEq

/-- Parse of one hash-entry record from the front of a slice: succeeds iff
at least 8 bytes are available. -/
def parseHashEntryHeader (bytes : Bytes) : Option ApiSetHashEntryHeader :=
  if 8 ≤ bytes.length then
    some { hash := readU32 bytes 0, index := readU32 bytes 4 }
  else none

/-- Fields of `ApiSetNamespaceEntryHeader` (`src/namespace_entry.rs`), 24 bytes. -/
structure ApiSetNamespaceEntryHeader where
  flags : Nat
  name_offset : Nat
  name_length : Nat
  hashed_length : Nat
  array_offset : Nat
  array_count : Nat
deriving DecidableEq

/-- Parse of one namespace-entry record from the front of a slice: succeeds
iff at least 24 bytes are available. -/
def parseNamespaceEntryHeader (bytes : Bytes) : Option ApiSetNamespaceEntryHeader :=
  if 24 ≤ bytes.length then
    some { flags := readU32 bytes 0, name_offset := readU32 bytes 4,
           name_length := readU32 bytes 8, hashed_length := readU32 bytes 12,
           array_offset := readU32 bytes 16, array_count := readU32 bytes 20 }
  else none

/-- Fields of `ApiSetValueEntryHeader` (`src/value_entry.rs`), 20 bytes. -/
structure ApiSetValueEntryHeader where
  flags : Nat
  name_offset : Nat
  name_length : Nat
  value_offset : Nat
  value_length : Nat
deriving DecidableEq

/-- Parse of one value-entry record from the front of a slice: succeeds iff
at least 20 bytes are available. -/
def parseValueEntryHeader (bytes : Bytes) : Option ApiSetValueEntryHeader :=
  if 20 ≤ bytes.length then
    some { flags := readU32 bytes 0, name_offset := readU32 bytes 4,
           name_length := readU32 bytes 8, value_offset := readU32 bytes 12,
           value_length := readU32 bytes 16 }
  else none

/-- `ApiSetMap` (`src/map.rs`): the borrowed section bytes plus the header
view parsed from their front. -/
structure ApiSetMap where
  section_bytes : Bytes
  header : ApiSetMapHeader
deriving DecidableEq

/-- `ApiSetMap::try_from_apiset_section_bytes`: read the 28-byte header,
reject any version other than 6, and otherwise return the map. -/
def ApiSetMap.try_from_apiset_section_bytes (section_bytes : Bytes) :
    Except NtApiSetError ApiSetMap :=
  match parseMapHeader section_bytes with
  | none => .error (.InvalidMapHeaderSize 28 section_bytes.length)
  | some header =>
    if header.version ≠ 6 then .error (.UnsupportedVersion header.version)
    else .ok { section_bytes := section_bytes, header := header }

/-- `ApiSetMap::flags`: `ApiSetMapFlags::from_bits_truncate` keeps the two
known bits `SEALED = 1` and `IS_EXTENSION = 2`. -/
def ApiSetMap.flags (m : ApiSetMap) : Nat :=
  m.header.flags &&& 3

/-- `ApiSetHashEntries` iterator state (`src/hash_entry.rs`): section bytes
plus the remaining byte range. -/
structure ApiSetHashEntries where
  section_bytes : Bytes
  start : Nat
  stop : Nat
deriving DecidableEq

/-- `ApiSetHashEntry`: the parsed 8-byte record view. -/
structure ApiSetHashEntry where
  header : ApiSetHashEntryHeader
deriving DecidableEq

/-- `ApiSetHashEntries::next`: re-slice the buffer at the current range,
parse one 8-byte record, and advance the cursor by 8 on success. -/
def ApiSetHashEntries.next (it : ApiSetHashEntries) :
    Option (ApiSetHashEntry × ApiSetHashEntries) :=
  match sliceGet it.section_bytes it.start it.stop with
  | none => none
  | some s =>
    match parseHashEntryHeader s with
    | none => none
    | some h => some (⟨h⟩, { it with start := it.start + 8 })

/-- `ApiSetHashEntries::size_hint` / `ExactSizeIterator::len`:
remaining range length divided by the record size. -/
def ApiSetHashEntries.len (it : ApiSetHashEntries) : Nat :=
  (it.stop - it.start) / 8

/-- `ApiSetHashEntries::nth`: skip `n * 8` bytes with overflow-checked
`usize` arithmetic, then `next`. -/
def ApiSetHashEntries.nth (it : ApiSetHashEntries) (n : Nat) :
    Option (ApiSetHashEntry × ApiSetHashEntries) :=
  match checkedMul n 8 with
  | none => none
  | some bytes_to_skip =>
    match checkedAdd it.start bytes_to_skip with
    | none => none
    | some s => ApiSetHashEntries.next { it with start := s }

/-- Repeated `next`: the iterator state after `k` successful `next` calls. -/
def ApiSetHashEntries.iterate (it : ApiSetHashEntries) : Nat → Option ApiSetHashEntries
  | 0 => some it
  | k + 1 =>
    match it.next with
    | none => none
    | some (_, it2) => it2.iterate k

/-- `ApiSetNamespaceEntries` iterator state (`src/namespace_entry.rs`). -/
structure ApiSetNamespaceEntries where
  section_bytes : Bytes
  start : Nat
  stop : Nat
deriving DecidableEq

/-- `ApiSetNamespaceEntry`: the parsed 24-byte record view, remembering the
section bytes and the entry's own byte offset (`position`). -/
structure ApiSetNamespaceEntry where
  section_bytes : Bytes
  position : Nat
  header : ApiSetNamespaceEntryHeader
deriving DecidableEq

/-- `ApiSetNamespaceEntries::next`. -/
def ApiSetNamespaceEntries.next (it : ApiSetNamespaceEntries) :
    Option (ApiSetNamespaceEntry × ApiSetNamespaceEntries) :=
  match sliceGet it.section_bytes it.start it.stop with
  | none => none
  | some s =>
    match parseNamespaceEntryHeader s with
    | none => none
    | some h =>
      some (⟨it.section_bytes, it.start, h⟩, { it with start := it.start + 24 })

/-- `ApiSetNamespaceEntries` length via `size_hint`. -/
def ApiSetNamespaceEntries.len (it : ApiSetNamespaceEntries) : Nat :=
  (it.stop - it.start) / 24

/-- `ApiSetNamespaceEntries::nth`. -/
def ApiSetNamespaceEntries.nth (it : ApiSetNamespaceEntries) (n : Nat) :
    Option (ApiSetNamespaceEntry × ApiSetNamespaceEntries) :=
  match checkedMul n 24 with
  | none => none
  | some bytes_to_skip =>
    match checkedAdd it.start bytes_to_skip with
    | none => none
    | some s => ApiSetNamespaceEntries.next { it with start := s }

/-- Repeated `next` for namespace entries. -/
def ApiSetNamespaceEntries.iterate (it : ApiSetNamespaceEntries) :
    Nat → Option ApiSetNamespaceEntries
  | 0 => some it
  | k + 1 =>
    match it.next with
    | none => none
    | some (_, it2) => it2.iterate k

/-- `ApiSetValueEntries` iterator state (`src/value_entry.rs`). -/
structure ApiSetValueEntries where
  section_bytes : Bytes
  start : Nat
  stop : Nat
deriving DecidableEq

/-- `ApiSetValueEntry`: the parsed 20-byte record view with its position. -/
structure ApiSetValueEntry where
  section_bytes : Bytes
  position : Nat
  header : ApiSetValueEntryHeader
deriving DecidableEq

/-- `ApiSetValueEntries::next`. -/
def ApiSetValueEntries.next (it : ApiSetValueEntries) :
    Option (ApiSetValueEntry × ApiSetValueEntries) :=
  match sliceGet it.section_bytes it.start it.stop with
  | none => none
  | some s =>
    match parseValueEntryHeader s with
    | none => none
    | some h =>
      some (⟨it.section_bytes, it.start, h⟩, { it with start := it.start + 20 })

/-- `ApiSetValueEntries` length via `size_hint`. -/
def ApiSetValueEntries.len (it : ApiSetValueEntries) : Nat :=
  (it.stop - it.start) / 20

/-- `ApiSetMap::hash_entries`: validate
`[hash_entry_offset, hash_entry_offset + count * 8)` against the section
buffer and hand the range to the iterator. -/
def ApiSetMap.hash_entries (m : ApiSetMap) : Except NtApiSetError ApiSetHashEntries :=
  let start := m.header.hash_entry_offset
  let stop := start + 8 * m.header.count
  match sliceGet m.section_bytes start stop with
  | some _ => .ok ⟨m.section_bytes, start, stop⟩
  | none => .error (.HashEntriesOutOfBounds start stop m.section_bytes.length)

/-- `ApiSetMap::namespace_entries`: validate
`[namespace_entry_offset, namespace_entry_offset + count * 24)`. -/
def ApiSetMap.namespace_entries (m : ApiSetMap) :
    Except NtApiSetError ApiSetNamespaceEntries :=
  let start := m.header.namespace_entry_offset
  let stop := start + 24 * m.header.count
  match sliceGet m.section_bytes start stop with
  | some _ => .ok ⟨m.section_bytes, start, stop⟩
  | none => .error (.NamespaceEntriesOutOfBounds start stop m.section_bytes.length)

/-- `ApiSetNamespaceEntry::flags` (two known bits). -/
def ApiSetNamespaceEntry.flags (e : ApiSetNamespaceEntry) : Nat :=
  e.header.flags &&& 3

/-- `ApiSetNamespaceEntry::name`: resolve the (offset, length) pair against
the section buffer; the `Ok` value is the raw UTF-16LE byte view. -/
def ApiSetNamespaceEntry.name (e : ApiSetNamespaceEntry) : Except NtApiSetError Bytes :=
  let start := e.header.name_offset
  let stop := start + e.header.name_length
  match sliceGet e.section_bytes start stop with
  | some name_bytes => .ok name_bytes
  | none => .error (.EntryNameOutOfBounds start stop e.position e.section_bytes.length)

/-- `ApiSetNamespaceEntry::value_entries`: validate
`[array_offset, array_offset + array_count * 20)`. -/
def ApiSetNamespaceEntry.value_entries (e : ApiSetNamespaceEntry) :
    Except NtApiSetError ApiSetValueEntries :=
  let start := e.header.array_offset
  let stop := start + 20 * e.header.array_count
  match sliceGet e.section_bytes start stop with
  | some _ => .ok ⟨e.section_bytes, start, stop⟩
  | none => .error (.ValueEntriesOutOfBounds start stop e.section_bytes.length)

/-- `ApiSetValueEntry::flags`: raw u32, exposed verbatim. -/
def ApiSetValueEntry.flags (v : ApiSetValueEntry) : Nat :=
  v.header.flags

/-- `ApiSetValueEntry::name`. -/
def ApiSetValueEntry.name (v : ApiSetValueEntry) : Except NtApiSetError Bytes :=
  let start := v.header.name_offset
  let stop := start + v.header.name_length
  match sliceGet v.section_bytes start stop with
  | some bytes => .ok bytes
  | none => .error (.EntryNameOutOfBounds start stop v.position v.section_bytes.length)

/-- `ApiSetValueEntry::value`. -/
def ApiSetValueEntry.value (v : ApiSetValueEntry) : Except NtApiSetError Bytes :=
  let start := v.header.value_offset
  let stop := start + v.header.value_length
  match sliceGet v.section_bytes start stop with
  | some bytes => .ok bytes
  | none => .error (.EntryNameOutOfBounds start stop v.position v.section_bytes.length)

/-- Rust `str::rsplit_once('-')` on a character list: split at the last
occurrence of `sep`, or `none` when `sep` does not occur. -/
def rsplitOnceList : List Char → Char → Option (List Char × List Char)
  | [], _ => none
  | c :: rest, sep =>
    match rsplitOnceList rest sep with
    | some (l, r) => some (c :: l, r)
    | none => if c = sep then some ([], rest) else none

/-- The hash fold of `find_namespace_entry`:
`acc = acc.wrapping_mul(hash_factor).wrapping_add(char as u32)`, `acc`
starting at 0, over the characters before the last hyphen. -/
def hashFold (hash_factor : Nat) (cs : List Char) : Nat :=
  cs.foldl (fun acc c => (acc * hash_factor % U32MOD + c.toNat) % U32MOD) 0

/-- UTF-16LE encoding of a list of BMP characters (two bytes per char).
Models, at the interface boundary, the comparison `U16StrLe == &str` of the
external `nt-string` crate: for the BMP-only names appearing in API Set
maps the comparison holds exactly when the raw bytes equal this encoding
of the query string. -/
def utf16leEncode : List Char → Bytes
  | [] => []
  | c :: rest =>
    UInt8.ofNat (c.toNat % 256) :: UInt8.ofNat (c.toNat / 256 % 256) :: utf16leEncode rest

/-- Result of `find_namespace_entry`.  Rust's return type is
`Option<Result<ApiSetNamespaceEntry>>`; `panicked` additionally models the
`.unwrap()` inside the binary search, proved unreachable for validated
ranges. -/
inductive FindResult where
  | panicked
  | notFound
  | found (r : Except NtApiSetError ApiSetNamespaceEntry)
deriving DecidableEq

/-- Body of the `Ordering::Equal` arm of the binary search in
`find_namespace_entry`: fetch the namespace entry at `index` (an
out-of-range index makes `nth` fail, which the `?` operator turns into
`None`), read its name, and compare it against the full query. -/
def equalBranch (namespace_entries : ApiSetNamespaceEntries) (q : List Char)
    (index : Nat) : FindResult :=
  match namespace_entries.nth index with
  | none => .notFound
  | some (namespace_entry, _) =>
    match namespace_entry.name with
    | .error e => .found (.error e)
    | .ok name_bytes =>
      if name_bytes = utf16leEncode q then .found (.ok namespace_entry)
      else .notFound

/-- The `while left <= right` binary-search loop of `find_namespace_entry`
over `i64` bounds.  `fuel` counts loop iterations; every iteration shrinks
`right - left + 1` by at least one, so any `fuel ≥ (right - left + 1)` makes
the 0-fuel branch unreachable (see the loop lemmas below).  The `none`
result of the `.unwrap()` on `nth` is surfaced as `panicked`. -/
def findLoop (hash_entries : ApiSetHashEntries)
    (namespace_entries : ApiSetNamespaceEntries) (hash : Nat) (q : List Char) :
    Nat → Int → Int → FindResult
  | fuel, left, right =>
    if left ≤ right then
      match fuel with
      | 0 => .notFound
      | fuel' + 1 =>
        let mid := Int.tdiv (left + right) 2
        match hash_entries.nth mid.toNat with
        | none => .panicked
        | some (hash_entry, _) =>
          if hash_entry.header.hash = hash then
            equalBranch namespace_entries q hash_entry.header.index
          else if hash_entry.header.hash < hash then
            findLoop hash_entries namespace_entries hash q fuel' (mid + 1) right
          else
            findLoop hash_entries namespace_entries hash q fuel' left (mid - 1)
    else .notFound

/-- `ApiSetMap::find_namespace_entry`: split the query at its last hyphen,
hash the part before it with the wrapping fold, obtain both validated
iterators, and binary-search the sorted hash-entry array. -/
def ApiSetMap.find_namespace_entry (m : ApiSetMap) (namespace_entry_name : List Char) :
    FindResult :=
  match rsplitOnceList namespace_entry_name '-' with
  | none => .notFound
  | some (name_to_hash, _) =>
    let hash := hashFold m.header.hash_factor name_to_hash
    match m.hash_entries with
    | .error e => .found (.error e)
    | .ok hash_entries =>
      match m.namespace_entries with
      | .error e => .found (.error e)
      | .ok namespace_entries =>
        findLoop hash_entries namespace_entries hash namespace_entry_name
          hash_entries.len 0 ((hash_entries.len : Int) - 1)

/-- Hash field of the `k`-th record of a hash-entry array starting at byte
offset `hs`. -/
def hashAt (bs : Bytes) (hs k : Nat) : Nat :=
  readU32 bs (hs + 8 * k)

/-- Index field of the `k`-th record of a hash-entry array. -/
def idxAt (bs : Bytes) (hs k : Nat) : Nat :=
  readU32 bs (hs + 8 * k + 4)

/-- The parsed `k`-th hash entry of an array starting at `hs`. -/
def hashEntryAt (bs : Bytes) (hs k : Nat) : ApiSetHashEntry :=
  ⟨⟨hashAt bs hs k, idxAt bs hs k⟩⟩

/-- The parsed header of the `j`-th namespace entry of an array starting at
byte offset `ns`. -/
def nsHeaderAt (bs : Bytes) (ns j : Nat) : ApiSetNamespaceEntryHeader :=
  { flags := readU32 bs (ns + 24 * j), name_offset := readU32 bs (ns + 24 * j + 4),
    name_length := readU32 bs (ns + 24 * j + 8),
    hashed_length := readU32 bs (ns + 24 * j + 12),
    array_offset := readU32 bs (ns + 24 * j + 16),
    array_count := readU32 bs (ns + 24 * j + 20) }

/-- The `j`-th namespace entry view of an array starting at `ns`. -/
def nsEntryAt (bs : Bytes) (ns j : Nat) : ApiSetNamespaceEntry :=
  ⟨bs, ns + 24 * j, nsHeaderAt bs ns j⟩

/-- Observable content of a `FindResult`: entry views over two buffers that
hold the same data are compared by position, parsed header and name bytes
rather than by the identity of the backing buffer. -/
inductive FindObs where
  | panicked
  | notFound
  | foundError (e : NtApiSetError)
  | foundEntry (position : Nat) (header : ApiSetNamespaceEntryHeader)
      (name : Except NtApiSetError Bytes)
deriving DecidableEq

/-- Observation map from `FindResult` to `FindObs`. -/
def FindResult.observe : FindResult → FindObs
  | .panicked => .panicked
  | .notFound => .notFound
  | .found (.error e) => .foundError e
  | .found (.ok e) => .foundEntry e.position e.header e.name

/-- Observation of a `hash_entries()` result: the validated byte range, or
the error. -/
def hashEntriesObs (r : Except NtApiSetError ApiSetHashEntries) :
    Except NtApiSetError (Nat × Nat) :=
  r.map (fun it => (it.start, it.stop))

/-- Observation of a `namespace_entries()` result. -/
def nsEntriesObs (r : Except NtApiSetError ApiSetNamespaceEntries) :
    Except NtApiSetError (Nat × Nat) :=
  r.map (fun it => (it.start, it.stop))

/-- Four little-endian bytes of a u32, for building concrete test buffers. -/
def u32bytes (n : Nat) : Bytes :=
  [UInt8.ofNat (n % 256), UInt8.ofNat (n / 256 % 256), UInt8.ofNat (n / 65536 % 256),
   UInt8.ofNat (n / 16777216 % 256)]

/-- Concrete well-formed one-entry map (66 bytes): version 6, count 1, hash
entry at byte 28 (hash 97 = fold of "a" under hash factor 0, index 0),
namespace entry at byte 36 whose name "a-b" is stored as UTF-16LE at byte
60, no value entries. -/
def wit1bs : Bytes :=
  u32bytes 6 ++ u32bytes 0 ++ u32bytes 0 ++ u32bytes 1 ++ u32bytes 36 ++ u32bytes 28 ++
    u32bytes 0 ++
    u32bytes 97 ++ u32bytes 0 ++
    u32bytes 0 ++ u32bytes 60 ++ u32bytes 6 ++ u32bytes 2 ++ u32bytes 0 ++ u32bytes 0 ++
    utf16leEncode ['a', '-', 'b']

/-- The decoded map of `wit1bs`. -/
def wit1map : ApiSetMap := ⟨wit1bs, ⟨6, 0, 0, 1, 36, 28, 0⟩⟩

/-- 28-byte version-6 buffer whose namespace-entry range [5, 29) exceeds
the buffer. -/
def c2bs : Bytes :=
  u32bytes 6 ++ u32bytes 0 ++ u32bytes 0 ++ u32bytes 1 ++ u32bytes 5 ++ u32bytes 0 ++
    u32bytes 0

/-- The decoded map of `c2bs`. -/
def c2map : ApiSetMap := ⟨c2bs, ⟨6, 0, 0, 1, 5, 0, 0⟩⟩

/-- 28-byte buffer with version field 5. -/
def c3bs : Bytes :=
  u32bytes 5 ++ u32bytes 0 ++ u32bytes 0 ++ u32bytes 1 ++ u32bytes 5 ++ u32bytes 0 ++
    u32bytes 0

/-- 52-byte front of `c5bs`: header (version 6, count 1, namespace entries
at 28, hash entries at 0) followed by one namespace entry whose value-entry
array has `array_offset = 0` and `array_count = 0xFFFFFFFF`. -/
def c5front : Bytes :=
  u32bytes 6 ++ u32bytes 0 ++ u32bytes 0 ++ u32bytes 1 ++ u32bytes 28 ++ u32bytes 0 ++
    u32bytes 0 ++
    u32bytes 0 ++ u32bytes 0 ++ u32bytes 0 ++ u32bytes 0 ++ u32bytes 0 ++
    u32bytes 4294967295

/-- An 85899345952-byte buffer: `c5front` padded with zero bytes so that
the value-entry range [0, 20 * 0xFFFFFFFF) = [0, 85899345900) of its
namespace entry genuinely fits inside the buffer. -/
def c5bs : Bytes := c5front ++ List.replicate 85899345900 0

/-- The decoded map of `c5bs`. -/
def c5map : ApiSetMap := ⟨c5bs, ⟨6, 0, 0, 1, 28, 0, 0⟩⟩

/-- The single namespace entry of `c5map`, as produced by its namespace
iterator. -/
def c5entry : ApiSetNamespaceEntry := ⟨c5bs, 28, ⟨0, 0, 0, 0, 0, 4294967295⟩⟩

/-- First buffer of the C10 counterexample (56 bytes): `hash_entry_offset`
is 0, so the hash-entry array overlaps the header and the header's size
field (bytes 4..8) is read back as the hash entry's `index`.  The
namespace entry at 28 is named by the two UTF-16LE code units `{6, 45}`
stored at byte 52, and the query hashing to 6 resolves through it. -/
def c10b1 : Bytes :=
  u32bytes 6 ++ u32bytes 0 ++ u32bytes 0 ++ u32bytes 1 ++ u32bytes 28 ++ u32bytes 0 ++
    u32bytes 0 ++
    u32bytes 0 ++ u32bytes 52 ++ u32bytes 4 ++ u32bytes 2 ++ u32bytes 0 ++ u32bytes 0 ++
    utf16leEncode [Char.ofNat 6, '-']

/-- Second buffer of the C10 counterexample: identical to `c10b1` except
the size field is 1, which the overlapping hash entry reads as index 1. -/
def c10b2 : Bytes :=
  u32bytes 6 ++ u32bytes 1 ++ u32bytes 0 ++ u32bytes 1 ++ u32bytes 28 ++ u32bytes 0 ++
    u32bytes 0 ++
    u32bytes 0 ++ u32bytes 52 ++ u32bytes 4 ++ u32bytes 2 ++ u32bytes 0 ++ u32bytes 0 ++
    utf16leEncode [Char.ofNat 6, '-']

/-- The decoded map of `c10b1`. -/
def c10map1 : ApiSetMap := ⟨c10b1, ⟨6, 0, 0, 1, 28, 0, 0⟩⟩

/-- The decoded map of `c10b2`. -/
def c10map2 : ApiSetMap := ⟨c10b2, ⟨6, 1, 0, 1, 28, 0, 0⟩⟩

/-- The namespace entry returned by the successful lookup on `c10b1`. -/
def c10entry : ApiSetNamespaceEntry := ⟨c10b1, 28, ⟨0, 52, 4, 2, 0, 0⟩⟩

/-- Copy of `wit1bs` whose size field (bytes 4..8) is 7 instead of 0; all
data regions of this map lie at offsets at least 8. -/
def wit10bs : Bytes :=
  u32bytes 6 ++ u32bytes 7 ++ u32bytes 0 ++ u32bytes 1 ++ u32bytes 36 ++ u32bytes 28 ++
    u32bytes 0 ++
    u32bytes 97 ++ u32bytes 0 ++
    u32bytes 0 ++ u32bytes 60 ++ u32bytes 6 ++ u32bytes 2 ++ u32bytes 0 ++ u32bytes 0 ++
    utf16leEncode ['a', '-', 'b']

/-- The decoded map of `wit10bs`. -/
def wit10map : ApiSetMap := ⟨wit10bs, ⟨6, 7, 0, 1, 36, 28, 0⟩⟩

/-! Infrastructure lemmas: reads, slices, iterator steps. -/

theorem byte_lt (b : UInt8) : b.toNat < 256 := b.val.isLt

theorem readU32_lt (bs : Bytes) (off : Nat) : readU32 bs off < U32MOD := by
  unfold readU32 U32MOD
  have h0 := byte_lt (bs.getD off 0)
  have h1 := byte_lt (bs.getD (off + 1) 0)
  have h2 := byte_lt (bs.getD (off + 2) 0)
  have h3 := byte_lt (bs.getD (off + 3) 0)
  omega

theorem getD_slice (bs : Bytes) (s n i : Nat) (h : i < n) :
    ((bs.drop s).take n).getD i 0 = bs.getD (s + i) 0 := by
  simp [List.getD, List.getElem?_take_of_lt h, List.getElem?_drop]

theorem readU32_slice (bs : Bytes) (s n off : Nat) (h : off + 4 ≤ n) :
    readU32 ((bs.drop s).take n) off = readU32 bs (s + off) := by
  have e1 := getD_slice bs s n off (by omega)
  have e2 := getD_slice bs s n (off + 1) (by omega)
  have e3 := getD_slice bs s n (off + 2) (by omega)
  have e4 := getD_slice bs s n (off + 3) (by omega)
  unfold readU32
  rw [e1, e2, e3, e4, show s + (off + 1) = s + off + 1 from by omega,
    show s + (off + 2) = s + off + 2 from by omega,
    show s + (off + 3) = s + off + 3 from by omega]

theorem sliceGet_some (bs : Bytes) (s e : Nat) (h1 : s ≤ e) (h2 : e ≤ bs.length) :
    sliceGet bs s e = some ((bs.drop s).take (e - s)) := by
  unfold sliceGet
  rw [if_pos ⟨h1, h2⟩]

theorem sliceGet_none (bs : Bytes) (s e : Nat) (h : ¬(s ≤ e ∧ e ≤ bs.length)) :
    sliceGet bs s e = none := by
  unfold sliceGet
  rw [if_neg h]

theorem slice_length (bs : Bytes) (s e : Nat) (h2 : e ≤ bs.length) :
    ((bs.drop s).take (e - s)).length = e - s := by
  simp only [List.length_take, List.length_drop]
  omega

theorem hash_next_some (bs : Bytes) (s e : Nat) (h1 : s + 8 ≤ e) (h2 : e ≤ bs.length) :
    ApiSetHashEntries.next ⟨bs, s, e⟩ =
      some (⟨⟨readU32 bs s, readU32 bs (s + 4)⟩⟩, ⟨bs, s + 8, e⟩) := by
  have hp : parseHashEntryHeader ((bs.drop s).take (e - s)) =
      some ⟨readU32 bs s, readU32 bs (s + 4)⟩ := by
    unfold parseHashEntryHeader
    rw [if_pos (by rw [slice_length bs s e h2]; omega)]
    have r0 := readU32_slice bs s (e - s) 0 (by omega)
    have r4 := readU32_slice bs s (e - s) 4 (by omega)
    rw [Nat.add_zero] at r0
    rw [r0, r4]
  unfold ApiSetHashEntries.next
  rw [sliceGet_some bs s e (by omega) h2]
  dsimp only
  rw [hp]

theorem hash_next_none (bs : Bytes) (s e : Nat) (h : e < s + 8 ∨ bs.length < e) :
    ApiSetHashEntries.next ⟨bs, s, e⟩ = none := by
  unfold ApiSetHashEntries.next
  by_cases hs : s ≤ e ∧ e ≤ bs.length
  · rw [sliceGet_some bs s e hs.1 hs.2]
    have hp : parseHashEntryHeader ((bs.drop s).take (e - s)) = none := by
      unfold parseHashEntryHeader
      rw [if_neg (by rw [slice_length bs s e hs.2]; omega)]
    dsimp only
    rw [hp]
  · rw [sliceGet_none bs s e hs]

theorem ns_next_some (bs : Bytes) (s e : Nat) (h1 : s + 24 ≤ e) (h2 : e ≤ bs.length) :
    ApiSetNamespaceEntries.next ⟨bs, s, e⟩ =
      some (⟨bs, s, ⟨readU32 bs s, readU32 bs (s + 4), readU32 bs (s + 8),
        readU32 bs (s + 12), readU32 bs (s + 16), readU32 bs (s + 20)⟩⟩,
        ⟨bs, s + 24, e⟩) := by
  have hp : parseNamespaceEntryHeader ((bs.drop s).take (e - s)) =
      some ⟨readU32 bs s, readU32 bs (s + 4), readU32 bs (s + 8), readU32 bs (s + 12),
        readU32 bs (s + 16), readU32 bs (s + 20)⟩ := by
    unfold parseNamespaceEntryHeader
    rw [if_pos (by rw [slice_length bs s e h2]; omega)]
    have r0 := readU32_slice bs s (e - s) 0 (by omega)
    rw [Nat.add_zero] at r0
    rw [r0, readU32_slice bs s (e - s) 4 (by omega), readU32_slice bs s (e - s) 8 (by omega),
      readU32_slice bs s (e - s) 12 (by omega), readU32_slice bs s (e - s) 16 (by omega),
      readU32_slice bs s (e - s) 20 (by omega)]
  unfold ApiSetNamespaceEntries.next
  rw [sliceGet_some bs s e (by omega) h2]
  dsimp only
  rw [hp]

theorem ns_next_none (bs : Bytes) (s e : Nat) (h : e < s + 24 ∨ bs.length < e) :
    ApiSetNamespaceEntries.next ⟨bs, s, e⟩ = none := by
  unfold ApiSetNamespaceEntries.next
  by_cases hs : s ≤ e ∧ e ≤ bs.length
  · rw [sliceGet_some bs s e hs.1 hs.2]
    have hp : parseNamespaceEntryHeader ((bs.drop s).take (e - s)) = none := by
      unfold parseNamespaceEntryHeader
      rw [if_neg (by rw [slice_length bs s e hs.2]; omega)]
    dsimp only
    rw [hp]
  · rw [sliceGet_none bs s e hs]

theorem hash_nth_some (bs : Bytes) (s c k : Nat) (hk : k < c)
    (hb : s + 8 * c ≤ bs.length) (hlen : bs.length < USIZEMOD) :
    ApiSetHashEntries.nth ⟨bs, s, s + 8 * c⟩ k =
      some (hashEntryAt bs s k, ⟨bs, s + 8 * k + 8, s + 8 * c⟩) := by
  unfold USIZEMOD at hlen
  have e1 : checkedMul k 8 = some (k * 8) := by
    unfold checkedMul USIZEMOD
    rw [if_pos (by omega)]
  have e2 : checkedAdd s (k * 8) = some (s + k * 8) := by
    unfold checkedAdd USIZEMOD
    rw [if_pos (by omega)]
  unfold ApiSetHashEntries.nth
  rw [e1]
  dsimp only
  rw [e2]
  dsimp only
  rw [show s + k * 8 = s + 8 * k from by omega]
  rw [hash_next_some bs (s + 8 * k) (s + 8 * c) (by omega) hb]
  rfl

theorem hash_nth_none (bs : Bytes) (s c k : Nat) (hk : c ≤ k) :
    ApiSetHashEntries.nth ⟨bs, s, s + 8 * c⟩ k = none := by
  unfold ApiSetHashEntries.nth
  by_cases h1 : k * 8 < USIZEMOD
  · have e1 : checkedMul k 8 = some (k * 8) := by
      unfold checkedMul
      rw [if_pos h1]
    rw [e1]
    dsimp only
    by_cases h2 : s + k * 8 < USIZEMOD
    · have e2 : checkedAdd s (k * 8) = some (s + k * 8) := by
        unfold checkedAdd
        rw [if_pos h2]
      rw [e2]
      dsimp only
      exact hash_next_none bs (s + k * 8) (s + 8 * c) (Or.inl (by omega))
    · have e2 : checkedAdd s (k * 8) = none := by
        unfold checkedAdd
        rw [if_neg h2]
      rw [e2]
  · have e1 : checkedMul k 8 = none := by
      unfold checkedMul
      rw [if_neg h1]
    rw [e1]

theorem ns_nth_some (bs : Bytes) (s c k : Nat) (hk : k < c)
    (hb : s + 24 * c ≤ bs.length) (hlen : bs.length < USIZEMOD) :
    ApiSetNamespaceEntries.nth ⟨bs, s, s + 24 * c⟩ k =
      some (nsEntryAt bs s k, ⟨bs, s + 24 * k + 24, s + 24 * c⟩) := by
  unfold USIZEMOD at hlen
  have e1 : checkedMul k 24 = some (k * 24) := by
    unfold checkedMul USIZEMOD
    rw [if_pos (by omega)]
  have e2 : checkedAdd s (k * 24) = some (s + k * 24) := by
    unfold checkedAdd USIZEMOD
    rw [if_pos (by omega)]
  unfold ApiSetNamespaceEntries.nth
  rw [e1]
  dsimp only
  rw [e2]
  dsimp only
  rw [show s + k * 24 = s + 24 * k from by omega]
  rw [ns_next_some bs (s + 24 * k) (s + 24 * c) (by omega) hb]
  rfl

theorem ns_nth_none (bs : Bytes) (s c k : Nat) (hk : c ≤ k) :
    ApiSetNamespaceEntries.nth ⟨bs, s, s + 24 * c⟩ k = none := by
  unfold ApiSetNamespaceEntries.nth
  by_cases h1 : k * 24 < USIZEMOD
  · have e1 : checkedMul k 24 = some (k * 24) := by
      unfold checkedMul
      rw [if_pos h1]
    rw [e1]
    dsimp only
    by_cases h2 : s + k * 24 < USIZEMOD
    · have e2 : checkedAdd s (k * 24) = some (s + k * 24) := by
        unfold checkedAdd
        rw [if_pos h2]
      rw [e2]
      dsimp only
      exact ns_next_none bs (s + k * 24) (s + 24 * c) (Or.inl (by omega))
    · have e2 : checkedAdd s (k * 24) = none := by
        unfold checkedAdd
        rw [if_neg h2]
      rw [e2]
  · have e1 : checkedMul k 24 = none := by
      unfold checkedMul
      rw [if_neg h1]
    rw [e1]

theorem try_from_small (bs : Bytes) (h : bs.length < 28) :
    ApiSetMap.try_from_apiset_section_bytes bs =
      .error (.InvalidMapHeaderSize 28 bs.length) := by
  unfold ApiSetMap.try_from_apiset_section_bytes parseMapHeader
  rw [if_neg (by omega)]

theorem try_from_badversion (bs : Bytes) (h28 : 28 ≤ bs.length)
    (hv : readU32 bs 0 ≠ 6) :
    ApiSetMap.try_from_apiset_section_bytes bs =
      .error (.UnsupportedVersion (readU32 bs 0)) := by
  unfold ApiSetMap.try_from_apiset_section_bytes parseMapHeader
  rw [if_pos h28]
  dsimp only
  rw [if_pos hv]

theorem try_from_v6 (bs : Bytes) (h28 : 28 ≤ bs.length) (hv : readU32 bs 0 = 6) :
    ApiSetMap.try_from_apiset_section_bytes bs =
      .ok ⟨bs, ⟨readU32 bs 0, readU32 bs 4, readU32 bs 8, readU32 bs 12,
        readU32 bs 16, readU32 bs 20, readU32 bs 24⟩⟩ := by
  unfold ApiSetMap.try_from_apiset_section_bytes parseMapHeader
  rw [if_pos h28]
  dsimp only
  rw [if_neg (by simp [hv])]

theorem try_from_ok (bs : Bytes) (m : ApiSetMap)
    (h : ApiSetMap.try_from_apiset_section_bytes bs = .ok m) :
    m.section_bytes = bs ∧ 28 ≤ bs.length ∧ readU32 bs 0 = 6 ∧
    m.header = ⟨readU32 bs 0, readU32 bs 4, readU32 bs 8, readU32 bs 12,
      readU32 bs 16, readU32 bs 20, readU32 bs 24⟩ := by
  by_cases h28 : 28 ≤ bs.length
  · by_cases hv : readU32 bs 0 = 6
    · rw [try_from_v6 bs h28 hv] at h
      injection h with h
      subst h
      exact ⟨rfl, h28, hv, rfl⟩
    · rw [try_from_badversion bs h28 hv] at h
      exact Except.noConfusion h
  · rw [try_from_small bs (by omega)] at h
    exact Except.noConfusion h

theorem hash_entries_ok (m : ApiSetMap)
    (h : m.header.hash_entry_offset + 8 * m.header.count ≤ m.section_bytes.length) :
    m.hash_entries = .ok ⟨m.section_bytes, m.header.hash_entry_offset,
      m.header.hash_entry_offset + 8 * m.header.count⟩ := by
  unfold ApiSetMap.hash_entries
  dsimp only
  rw [sliceGet_some _ _ _ (by omega) h]

theorem hash_entries_err (m : ApiSetMap)
    (h : m.section_bytes.length < m.header.hash_entry_offset + 8 * m.header.count) :
    m.hash_entries = .error (.HashEntriesOutOfBounds m.header.hash_entry_offset
      (m.header.hash_entry_offset + 8 * m.header.count) m.section_bytes.length) := by
  unfold ApiSetMap.hash_entries
  dsimp only
  rw [sliceGet_none _ _ _ (by omega)]

theorem ns_entries_ok (m : ApiSetMap)
    (h : m.header.namespace_entry_offset + 24 * m.header.count ≤ m.section_bytes.length) :
    m.namespace_entries = .ok ⟨m.section_bytes, m.header.namespace_entry_offset,
      m.header.namespace_entry_offset + 24 * m.header.count⟩ := by
  unfold ApiSetMap.namespace_entries
  dsimp only
  rw [sliceGet_some _ _ _ (by omega) h]

theorem ns_entries_err (m : ApiSetMap)
    (h : m.section_bytes.length <
      m.header.namespace_entry_offset + 24 * m.header.count) :
    m.namespace_entries = .error (.NamespaceEntriesOutOfBounds
      m.header.namespace_entry_offset
      (m.header.namespace_entry_offset + 24 * m.header.count)
      m.section_bytes.length) := by
  unfold ApiSetMap.namespace_entries
  dsimp only
  rw [sliceGet_none _ _ _ (by omega)]

theorem value_entries_ok (e : ApiSetNamespaceEntry)
    (h : e.header.array_offset + 20 * e.header.array_count ≤ e.section_bytes.length) :
    e.value_entries = .ok ⟨e.section_bytes, e.header.array_offset,
      e.header.array_offset + 20 * e.header.array_count⟩ := by
  unfold ApiSetNamespaceEntry.value_entries
  dsimp only
  rw [sliceGet_some _ _ _ (by omega) h]

theorem value_entries_err (e : ApiSetNamespaceEntry)
    (h : e.section_bytes.length < e.header.array_offset + 20 * e.header.array_count) :
    e.value_entries = .error (.ValueEntriesOutOfBounds e.header.array_offset
      (e.header.array_offset + 20 * e.header.array_count)
      e.section_bytes.length) := by
  unfold ApiSetNamespaceEntry.value_entries
  dsimp only
  rw [sliceGet_none _ _ _ (by omega)]

theorem ns_name_ok (e : ApiSetNamespaceEntry)
    (h : e.header.name_offset + e.header.name_length ≤ e.section_bytes.length) :
    e.name = .ok ((e.section_bytes.drop e.header.name_offset).take
      e.header.name_length) := by
  unfold ApiSetNamespaceEntry.name
  dsimp only
  rw [sliceGet_some _ _ _ (by omega) h, show e.header.name_offset +
    e.header.name_length - e.header.name_offset = e.header.name_length from by omega]

theorem ns_name_err (e : ApiSetNamespaceEntry)
    (h : e.section_bytes.length < e.header.name_offset + e.header.name_length) :
    e.name = .error (.EntryNameOutOfBounds e.header.name_offset
      (e.header.name_offset + e.header.name_length) e.position
      e.section_bytes.length) := by
  unfold ApiSetNamespaceEntry.name
  dsimp only
  rw [sliceGet_none _ _ _ (by omega)]

theorem ve_name_ok (v : ApiSetValueEntry)
    (h : v.header.name_offset + v.header.name_length ≤ v.section_bytes.length) :
    v.name = .ok ((v.section_bytes.drop v.header.name_offset).take
      v.header.name_length) := by
  unfold ApiSetValueEntry.name
  dsimp only
  rw [sliceGet_some _ _ _ (by omega) h, show v.header.name_offset +
    v.header.name_length - v.header.name_offset = v.header.name_length from by omega]

theorem ve_name_err (v : ApiSetValueEntry)
    (h : v.section_bytes.length < v.header.name_offset + v.header.name_length) :
    v.name = .error (.EntryNameOutOfBounds v.header.name_offset
      (v.header.name_offset + v.header.name_length) v.position
      v.section_bytes.length) := by
  unfold ApiSetValueEntry.name
  dsimp only
  rw [sliceGet_none _ _ _ (by omega)]

theorem ve_value_ok (v : ApiSetValueEntry)
    (h : v.header.value_offset + v.header.value_length ≤ v.section_bytes.length) :
    v.value = .ok ((v.section_bytes.drop v.header.value_offset).take
      v.header.value_length) := by
  unfold ApiSetValueEntry.value
  dsimp only
  rw [sliceGet_some _ _ _ (by omega) h, show v.header.value_offset +
    v.header.value_length - v.header.value_offset = v.header.value_length from by omega]

theorem ve_value_err (v : ApiSetValueEntry)
    (h : v.section_bytes.length < v.header.value_offset + v.header.value_length) :
    v.value = .error (.EntryNameOutOfBounds v.header.value_offset
      (v.header.value_offset + v.header.value_length) v.position
      v.section_bytes.length) := by
  unfold ApiSetValueEntry.value
  dsimp only
  rw [sliceGet_none _ _ _ (by omega)]

theorem hash_iterate (bs : Bytes) : ∀ (k s c : Nat), k ≤ c →
    s + 8 * c ≤ bs.length →
    ApiSetHashEntries.iterate ⟨bs, s, s + 8 * c⟩ k =
      some ⟨bs, s + 8 * k, s + 8 * c⟩ := by
  intro k
  induction k with
  | zero => intro s c _ _; rfl
  | succ k ih =>
    intro s c hk hb
    unfold ApiSetHashEntries.iterate
    rw [hash_next_some bs s (s + 8 * c) (by omega) hb]
    dsimp only
    have e : s + 8 * c = (s + 8) + 8 * (c - 1) := by omega
    rw [e, ih (s + 8) (c - 1) (by omega) (by omega),
      show s + 8 + 8 * k = s + 8 * (k + 1) from by omega]

theorem ns_iterate (bs : Bytes) : ∀ (k s c : Nat), k ≤ c →
    s + 24 * c ≤ bs.length →
    ApiSetNamespaceEntries.iterate ⟨bs, s, s + 24 * c⟩ k =
      some ⟨bs, s + 24 * k, s + 24 * c⟩ := by
  intro k
  induction k with
  | zero => intro s c _ _; rfl
  | succ k ih =>
    intro s c hk hb
    unfold ApiSetNamespaceEntries.iterate
    rw [ns_next_some bs s (s + 24 * c) (by omega) hb]
    dsimp only
    have e : s + 24 * c = (s + 24) + 24 * (c - 1) := by omega
    rw [e, ih (s + 24) (c - 1) (by omega) (by omega),
      show s + 24 + 24 * k = s + 24 * (k + 1) from by omega]

theorem hash_len_at (bs : Bytes) (s e : Nat) :
    ApiSetHashEntries.len ⟨bs, s, e⟩ = (e - s) / 8 := rfl

theorem ns_len_at (bs : Bytes) (s e : Nat) :
    ApiSetNamespaceEntries.len ⟨bs, s, e⟩ = (e - s) / 24 := rfl

theorem rsplit_eq_none (q : List Char) (sep : Char) (h : sep ∉ q) :
    rsplitOnceList q sep = none := by
  induction q with
  | nil => rfl
  | cons c rest ih =>
    have h1 : ¬(c = sep) := fun hc => h (by simp [hc])
    have h2 : sep ∉ rest := fun hm => h (by simp [hm])
    unfold rsplitOnceList
    rw [ih h2]
    dsimp only
    rw [if_neg h1]

theorem rsplit_last (pre suf : List Char) (sep : Char) (h : sep ∉ suf) :
    rsplitOnceList (pre ++ sep :: suf) sep = some (pre, suf) := by
  induction pre with
  | nil =>
    show rsplitOnceList (sep :: suf) sep = some ([], suf)
    unfold rsplitOnceList
    rw [rsplit_eq_none suf sep h]
    dsimp only
    rw [if_pos rfl]
  | cons c pre ih =>
    show rsplitOnceList (c :: (pre ++ sep :: suf)) sep = some (c :: pre, suf)
    unfold rsplitOnceList
    rw [ih]

theorem hash_len_count (bs : Bytes) (hs c : Nat) :
    ApiSetHashEntries.len ⟨bs, hs, hs + 8 * c⟩ = c := by
  unfold ApiSetHashEntries.len
  dsimp only
  omega

theorem ns_len_count (bs : Bytes) (ns c : Nat) :
    ApiSetNamespaceEntries.len ⟨bs, ns, ns + 24 * c⟩ = c := by
  unfold ApiSetNamespaceEntries.len
  dsimp only
  omega

theorem equalBranch_oob (bs : Bytes) (ns c : Nat) (q : List Char) (j : Nat)
    (hj : c ≤ j) :
    equalBranch ⟨bs, ns, ns + 24 * c⟩ q j = .notFound := by
  unfold equalBranch
  rw [ns_nth_none bs ns c j hj]

theorem equalBranch_in (bs : Bytes) (ns c : Nat) (q : List Char) (j : Nat)
    (hj : j < c) (hb : ns + 24 * c ≤ bs.length) (hlen : bs.length < USIZEMOD) :
    equalBranch ⟨bs, ns, ns + 24 * c⟩ q j =
      match (nsEntryAt bs ns j).name with
      | .error e => .found (.error e)
      | .ok nb =>
        if nb = utf16leEncode q then .found (.ok (nsEntryAt bs ns j))
        else .notFound := by
  unfold equalBranch
  rw [ns_nth_some bs ns c j hj hb hlen]

/-- Soundness of the binary-search loop: with a validated hash-entry range
the loop never panics, and its result is either `notFound` or the
`Ordering::Equal` arm evaluated at some in-range record whose hash equals
the target. -/
theorem findLoop_sound (bs : Bytes) (hs c : Nat) (nsIt : ApiSetNamespaceEntries)
    (h : Nat) (q : List Char) (hb : hs + 8 * c ≤ bs.length)
    (hlen : bs.length < USIZEMOD) :
    ∀ (fuel : Nat) (left right : Int), 0 ≤ left → right < (c : Int) →
    (findLoop ⟨bs, hs, hs + 8 * c⟩ nsIt h q fuel left right = .notFound ∨
     ∃ k : Nat, k < c ∧ hashAt bs hs k = h ∧
       findLoop ⟨bs, hs, hs + 8 * c⟩ nsIt h q fuel left right =
         equalBranch nsIt q (idxAt bs hs k)) := by
  intro fuel
  induction fuel with
  | zero =>
    intro left right hl hr
    left
    unfold findLoop
    by_cases hlr : left ≤ right
    · rw [if_pos hlr]
    · rw [if_neg hlr]
  | succ fuel ih =>
    intro left right hl hr
    by_cases hlr : left ≤ right
    · have hmid : Int.tdiv (left + right) 2 = (left + right) / 2 :=
        Int.tdiv_eq_ediv (by omega) (by omega)
      have hml : left ≤ (left + right) / 2 := by omega
      have hmr : (left + right) / 2 ≤ right := by omega
      have hmc : ((left + right) / 2).toNat < c := by omega
      unfold findLoop
      rw [if_pos hlr]
      dsimp only
      rw [hmid, hash_nth_some bs hs c (((left + right) / 2).toNat) hmc hb hlen]
      dsimp only [hashEntryAt]
      by_cases hh : hashAt bs hs (((left + right) / 2).toNat) = h
      · rw [if_pos hh]
        right
        exact ⟨((left + right) / 2).toNat, hmc, hh, rfl⟩
      · rw [if_neg hh]
        by_cases hlt : hashAt bs hs (((left + right) / 2).toNat) < h
        · rw [if_pos hlt]
          exact ih ((left + right) / 2 + 1) right (by omega) hr
        · rw [if_neg hlt]
          exact ih left ((left + right) / 2 - 1) hl (by omega)
    · left
      unfold findLoop
      rw [if_neg hlr]

/-- Completeness of the binary-search loop: if the hash array is sorted
(non-decreasing) on `[0, c)` and some in-range record inside the current
interval carries the target hash, the loop terminates in the
`Ordering::Equal` arm at such a record. -/
theorem findLoop_complete (bs : Bytes) (hs c : Nat)
    (nsIt : ApiSetNamespaceEntries) (h : Nat) (q : List Char)
    (hb : hs + 8 * c ≤ bs.length) (hlen : bs.length < USIZEMOD)
    (hsorted : ∀ i j : Nat, i ≤ j → j < c → hashAt bs hs i ≤ hashAt bs hs j) :
    ∀ (fuel : Nat) (left right : Int) (k0 : Nat), 0 ≤ left → right < (c : Int) →
    k0 < c → hashAt bs hs k0 = h → left ≤ (k0 : Int) → (k0 : Int) ≤ right →
    (right + 1 - left).toNat ≤ fuel →
    ∃ k : Nat, k < c ∧ hashAt bs hs k = h ∧ left ≤ (k : Int) ∧ (k : Int) ≤ right ∧
      findLoop ⟨bs, hs, hs + 8 * c⟩ nsIt h q fuel left right =
        equalBranch nsIt q (idxAt bs hs k) := by
  intro fuel
  induction fuel with
  | zero =>
    intro left right k0 hl hr hk0 hk0h hlk hkr hfuel
    omega
  | succ fuel ih =>
    intro left right k0 hl hr hk0 hk0h hlk hkr hfuel
    have hlr : left ≤ right := by omega
    have hmid : Int.tdiv (left + right) 2 = (left + right) / 2 :=
      Int.tdiv_eq_ediv (by omega) (by omega)
    have hml : left ≤ (left + right) / 2 := by omega
    have hmr : (left + right) / 2 ≤ right := by omega
    have hmc : ((left + right) / 2).toNat < c := by omega
    unfold findLoop
    rw [if_pos hlr]
    dsimp only
    rw [hmid, hash_nth_some bs hs c (((left + right) / 2).toNat) hmc hb hlen]
    dsimp only [hashEntryAt]
    by_cases hh : hashAt bs hs (((left + right) / 2).toNat) = h
    · rw [if_pos hh]
      exact ⟨((left + right) / 2).toNat, hmc, hh, by omega, by omega, rfl⟩
    · rw [if_neg hh]
      by_cases hlt : hashAt bs hs (((left + right) / 2).toNat) < h
      · rw [if_pos hlt]
        have hk0mid : (((left + right) / 2) : Int) < (k0 : Int) := by
          by_contra hcon
          have hle : k0 ≤ ((left + right) / 2).toNat := by omega
          have := hsorted k0 (((left + right) / 2).toNat) hle hmc
          omega
        obtain ⟨k, hk, hkh, hkl, hkr2, heq⟩ :=
          ih ((left + right) / 2 + 1) right k0 (by omega) hr hk0 hk0h
            (by omega) hkr (by omega)
        exact ⟨k, hk, hkh, by omega, hkr2, heq⟩
      · rw [if_neg hlt]
        have hk0mid : (k0 : Int) < ((left + right) / 2) := by
          by_contra hcon
          have hle : ((left + right) / 2).toNat ≤ k0 := by omega
          have := hsorted (((left + right) / 2).toNat) k0 hle hk0
          omega
        obtain ⟨k, hk, hkh, hkl, hkr2, heq⟩ :=
          ih left ((left + right) / 2 - 1) k0 hl (by omega) hk0 hk0h hlk
            (by omega) (by omega)
        exact ⟨k, hk, hkh, hkl, by omega, heq⟩

/-- Unfolding of `find_namespace_entry` down to the binary-search loop, for
a query with a hyphen and validated hash/namespace ranges. -/
theorem find_unfold (m : ApiSetMap) (q pre suf : List Char)
    (hq : q = pre ++ '-' :: suf) (hsuf : '-' ∉ suf)
    (hhe : m.header.hash_entry_offset + 8 * m.header.count ≤
      m.section_bytes.length)
    (hne : m.header.namespace_entry_offset + 24 * m.header.count ≤
      m.section_bytes.length) :
    m.find_namespace_entry q =
      findLoop ⟨m.section_bytes, m.header.hash_entry_offset,
          m.header.hash_entry_offset + 8 * m.header.count⟩
        ⟨m.section_bytes, m.header.namespace_entry_offset,
          m.header.namespace_entry_offset + 24 * m.header.count⟩
        (hashFold m.header.hash_factor pre) q m.header.count 0
        ((m.header.count : Int) - 1) := by
  unfold ApiSetMap.find_namespace_entry
  rw [hq, rsplit_last pre suf '-' hsuf]
  dsimp only
  rw [hash_entries_ok m hhe]
  dsimp only
  rw [ns_entries_ok m hne]
  dsimp only
  rw [hash_len_count]

/-! Claim theorems. -/

/-- C3: for every section buffer, decode fails with the header-too-small
error carrying expected 28 and the actual length when fewer than 28 bytes
are available; otherwise it fails with the unsupported-version error
carrying the version value read at offset 0 when that value is not 6;
otherwise it returns a Map. -/
theorem claim_C3 (bs : Bytes) :
    (bs.length < 28 →
      ApiSetMap.try_from_apiset_section_bytes bs =
        .error (.InvalidMapHeaderSize 28 bs.length)) ∧
    (28 ≤ bs.length → readU32 bs 0 ≠ 6 →
      ApiSetMap.try_from_apiset_section_bytes bs =
        .error (.UnsupportedVersion (readU32 bs 0))) ∧
    (28 ≤ bs.length → readU32 bs 0 = 6 →
      ApiSetMap.try_from_apiset_section_bytes bs =
        .ok ⟨bs, ⟨readU32 bs 0, readU32 bs 4, readU32 bs 8, readU32 bs 12,
          readU32 bs 16, readU32 bs 20, readU32 bs 24⟩⟩) :=
  ⟨fun h => try_from_small bs h,
   fun h28 hv => try_from_badversion bs h28 hv,
   fun h28 hv => try_from_v6 bs h28 hv⟩

/-- Witness for C3: a 28-byte buffer with version field 5 fails decode with
the unsupported-version error carrying 5. -/
theorem claim_C3_witness :
    ApiSetMap.try_from_apiset_section_bytes c3bs =
      .error (.UnsupportedVersion (readU32 c3bs 0)) ∧ readU32 c3bs 0 = 5 :=
  ⟨(claim_C3 c3bs).2.1 (by decide) (by decide), by decide⟩

/-- C6: for every namespace entry and every value entry, `name()` (and
`value()` for value entries) returns the exact byte slice
[name_offset, name_offset + name_length) of the section buffer as a raw
UTF-16LE view when the range lies within the buffer, and otherwise the
name-out-of-bounds error carrying the attempted range, the entry's own
byte offset, and the buffer's actual size. -/
theorem claim_C6 (e : ApiSetNamespaceEntry) (v : ApiSetValueEntry) :
    (e.header.name_offset + e.header.name_length ≤ e.section_bytes.length →
      e.name = .ok ((e.section_bytes.drop e.header.name_offset).take
        e.header.name_length)) ∧
    (e.section_bytes.length < e.header.name_offset + e.header.name_length →
      e.name = .error (.EntryNameOutOfBounds e.header.name_offset
        (e.header.name_offset + e.header.name_length) e.position
        e.section_bytes.length)) ∧
    (v.header.name_offset + v.header.name_length ≤ v.section_bytes.length →
      v.name = .ok ((v.section_bytes.drop v.header.name_offset).take
        v.header.name_length)) ∧
    (v.section_bytes.length < v.header.name_offset + v.header.name_length →
      v.name = .error (.EntryNameOutOfBounds v.header.name_offset
        (v.header.name_offset + v.header.name_length) v.position
        v.section_bytes.length)) ∧
    (v.header.value_offset + v.header.value_length ≤ v.section_bytes.length →
      v.value = .ok ((v.section_bytes.drop v.header.value_offset).take
        v.header.value_length)) ∧
    (v.section_bytes.length < v.header.value_offset + v.header.value_length →
      v.value = .error (.EntryNameOutOfBounds v.header.value_offset
        (v.header.value_offset + v.header.value_length) v.position
        v.section_bytes.length)) :=
  ⟨fun h => ns_name_ok e h, fun h => ns_name_err e h,
   fun h => ve_name_ok v h, fun h => ve_name_err v h,
   fun h => ve_value_ok v h, fun h => ve_value_err v h⟩

/-- Witness for C6: the in-range name of the `wit1bs` namespace entry reads
back its UTF-16LE bytes, and an out-of-range value entry on a 4-byte buffer
yields the error with range [2, 9), entry offset 7 and actual size 4. -/
theorem claim_C6_witness :
    (ApiSetNamespaceEntry.mk wit1bs 36 ⟨0, 60, 6, 2, 0, 0⟩).name =
      .ok ((wit1bs.drop 60).take 6) ∧
    (ApiSetValueEntry.mk [0, 0, 0, 0] 7 ⟨0, 2, 7, 3, 1⟩).name =
      .error (.EntryNameOutOfBounds 2 9 7 4) := by
  have h1 := claim_C6 (ApiSetNamespaceEntry.mk wit1bs 36 ⟨0, 60, 6, 2, 0, 0⟩)
    (ApiSetValueEntry.mk [0, 0, 0, 0] 7 ⟨0, 2, 7, 3, 1⟩)
  exact ⟨h1.1 (by decide), h1.2.2.2.1 (by decide)⟩

/-- C7: for each iterator `nth(n)`, when `n * record_size` (8 or 24) or the
addition of that product to the current cursor overflows the 64-bit usize,
`nth` returns `none` rather than wrapping the cursor around. -/
theorem claim_C7 (hit : ApiSetHashEntries) (nit : ApiSetNamespaceEntries)
    (n k : Nat) :
    (USIZEMOD ≤ n * 8 → hit.nth n = none) ∧
    (USIZEMOD ≤ hit.start + n * 8 → hit.nth n = none) ∧
    (USIZEMOD ≤ k * 24 → nit.nth k = none) ∧
    (USIZEMOD ≤ nit.start + k * 24 → nit.nth k = none) := by
  refine ⟨?_, ?_, ?_, ?_⟩
  · intro h
    unfold ApiSetHashEntries.nth
    have e1 : checkedMul n 8 = none := by
      unfold checkedMul
      rw [if_neg (by omega)]
    rw [e1]
  · intro h
    unfold ApiSetHashEntries.nth
    by_cases h1 : n * 8 < USIZEMOD
    · have e1 : checkedMul n 8 = some (n * 8) := by
        unfold checkedMul
        rw [if_pos h1]
      rw [e1]
      dsimp only
      have e2 : checkedAdd hit.start (n * 8) = none := by
        unfold checkedAdd
        rw [if_neg (by omega)]
      rw [e2]
    · have e1 : checkedMul n 8 = none := by
        unfold checkedMul
        rw [if_neg h1]
      rw [e1]
  · intro h
    unfold ApiSetNamespaceEntries.nth
    have e1 : checkedMul k 24 = none := by
      unfold checkedMul
      rw [if_neg (by omega)]
    rw [e1]
  · intro h
    unfold ApiSetNamespaceEntries.nth
    by_cases h1 : k * 24 < USIZEMOD
    · have e1 : checkedMul k 24 = some (k * 24) := by
        unfold checkedMul
        rw [if_pos h1]
      rw [e1]
      dsimp only
      have e2 : checkedAdd nit.start (k * 24) = none := by
        unfold checkedAdd
        rw [if_neg (by omega)]
      rw [e2]
    · have e1 : checkedMul k 24 = none := by
        unfold checkedMul
        rw [if_neg h1]
      rw [e1]

/-- Witness for C7: `nth` at 2^61 on a hash-entry iterator and at
768614336404564651 on a namespace-entry iterator both return `none`. -/
theorem claim_C7_witness :
    ApiSetHashEntries.nth ⟨[], 0, 0⟩ 2305843009213693952 = none ∧
    ApiSetNamespaceEntries.nth ⟨[], 0, 0⟩ 768614336404564651 = none := by
  have h := claim_C7 ⟨[], 0, 0⟩ ⟨[], 0, 0⟩ 2305843009213693952 768614336404564651
  exact ⟨h.1 (by decide), h.2.2.1 (by decide)⟩

/-- C2 counterexample: `try_from_apiset_section_bytes` itself does not
validate the array ranges: on the 28-byte buffer `c2bs`, whose namespace
range [5, 5 + 24 * 1) = [5, 29) exceeds the buffer, decode returns a Map
rather than the namespace-array-out-of-bounds error. -/
theorem claim_C2_counterexample :
    ApiSetMap.try_from_apiset_section_bytes c2bs = .ok c2map ∧
    c2bs.length < c2map.header.namespace_entry_offset + 24 * c2map.header.count :=
  ⟨by decide, by decide⟩

/-- C2 (amended): decode validates only the header size and version; the
byte-range checks happen lazily in `hash_entries()` /
`namespace_entries()`, which, for every decoded map whose range does not
fit the section buffer — in particular whenever
`namespace_entry_offset + count * 24 > len` — return the corresponding
array-out-of-bounds error carrying the attempted range and the actual
buffer length. -/
theorem claim_C2 (bs : Bytes) (m : ApiSetMap)
    (hdec : ApiSetMap.try_from_apiset_section_bytes bs = .ok m) :
    (bs.length < m.header.namespace_entry_offset + 24 * m.header.count →
      m.namespace_entries = .error (.NamespaceEntriesOutOfBounds
        m.header.namespace_entry_offset
        (m.header.namespace_entry_offset + 24 * m.header.count) bs.length)) ∧
    (bs.length < m.header.hash_entry_offset + 8 * m.header.count →
      m.hash_entries = .error (.HashEntriesOutOfBounds
        m.header.hash_entry_offset
        (m.header.hash_entry_offset + 8 * m.header.count) bs.length)) := by
  obtain ⟨hsb, -, -, -⟩ := try_from_ok bs m hdec
  constructor
  · intro h
    have hr := ns_entries_err m (by rw [hsb]; exact h)
    rw [hsb] at hr
    exact hr
  · intro h
    have hr := hash_entries_err m (by rw [hsb]; exact h)
    rw [hsb] at hr
    exact hr

/-- Witness for C2 (amended): on the decoded `c2bs` map,
`namespace_entries()` returns the namespace-array-out-of-bounds error with
range [5, 29) and actual length 28. -/
theorem claim_C2_witness :
    c2map.namespace_entries =
      .error (.NamespaceEntriesOutOfBounds 5 29 28) := by
  have h := (claim_C2 c2bs c2map (by decide)).1 (by decide)
  exact h.trans (by decide)

/-- C9: the `.unwrap()` inside the binary search of `find_namespace_entry`
is unreachable: for every decoded map, every hash-entry iterator whose
range `hash_entries()` validated, and every `mid` below the reported
length, `nth mid` (on a clone, i.e. on the iterator value) returns
`some`. -/
theorem claim_C9 (bs : Bytes) (m : ApiSetMap) (it : ApiSetHashEntries)
    (mid : Nat) (hdec : ApiSetMap.try_from_apiset_section_bytes bs = .ok m)
    (hit : m.hash_entries = .ok it) (hmid : mid < it.len)
    (hlen : bs.length < USIZEMOD) :
    (it.nth mid).isSome = true := by
  obtain ⟨hsb, -, -, -⟩ := try_from_ok bs m hdec
  have hlen2 : m.section_bytes.length < USIZEMOD := by rw [hsb]; exact hlen
  by_cases hok : m.header.hash_entry_offset + 8 * m.header.count ≤
      m.section_bytes.length
  · rw [hash_entries_ok m hok] at hit
    injection hit with hit
    subst hit
    rw [hash_len_count] at hmid
    rw [hash_nth_some m.section_bytes m.header.hash_entry_offset m.header.count
      mid hmid hok hlen2]
    rfl
  · rw [hash_entries_err m (by omega)] at hit
    exact Except.noConfusion hit

/-- Witness for C9: `nth 0` succeeds on the validated hash-entry iterator
of the `wit1bs` map. -/
theorem claim_C9_witness :
    (ApiSetHashEntries.nth ⟨wit1bs, 28, 36⟩ 0).isSome = true :=
  claim_C9 wit1bs wit1map ⟨wit1bs, 28, 36⟩ 0 (by decide) (by decide) (by decide)
    (by decide)

/-- C8: for every decoded map whose `hash_entries()` and
`namespace_entries()` return Ok, each iterator reports length equal to the
header's count before any element is consumed; after `k ≤ count`
successful `next` calls the remaining reported length is `count - k`; and
after exactly `count` records the iterator is exhausted. -/
theorem claim_C8 (bs : Bytes) (m : ApiSetMap) (hit : ApiSetHashEntries)
    (nit : ApiSetNamespaceEntries)
    (hdec : ApiSetMap.try_from_apiset_section_bytes bs = .ok m)
    (hh : m.hash_entries = .ok hit) (hn : m.namespace_entries = .ok nit) :
    hit.len = m.header.count ∧ nit.len = m.header.count ∧
    (∀ k : Nat, k ≤ m.header.count → ∃ it2 : ApiSetHashEntries,
      hit.iterate k = some it2 ∧ it2.len = m.header.count - k) ∧
    (∀ k : Nat, k ≤ m.header.count → ∃ it2 : ApiSetNamespaceEntries,
      nit.iterate k = some it2 ∧ it2.len = m.header.count - k) ∧
    (∀ it2 : ApiSetHashEntries, hit.iterate m.header.count = some it2 →
      it2.next = none) ∧
    (∀ it2 : ApiSetNamespaceEntries, nit.iterate m.header.count = some it2 →
      it2.next = none) := by
  obtain ⟨hsb, -, -, -⟩ := try_from_ok bs m hdec
  have hhok : m.header.hash_entry_offset + 8 * m.header.count ≤
      m.section_bytes.length := by
    by_contra hcon
    rw [hash_entries_err m (by omega)] at hh
    exact Except.noConfusion hh
  have hnok : m.header.namespace_entry_offset + 24 * m.header.count ≤
      m.section_bytes.length := by
    by_contra hcon
    rw [ns_entries_err m (by omega)] at hn
    exact Except.noConfusion hn
  rw [hash_entries_ok m hhok] at hh
  rw [ns_entries_ok m hnok] at hn
  injection hh with hh
  injection hn with hn
  subst hh
  subst hn
  refine ⟨hash_len_count _ _ _, ns_len_count _ _ _, ?_, ?_, ?_, ?_⟩
  · intro k hk
    refine ⟨⟨m.section_bytes, m.header.hash_entry_offset + 8 * k,
      m.header.hash_entry_offset + 8 * m.header.count⟩,
      hash_iterate m.section_bytes k m.header.hash_entry_offset m.header.count
        hk hhok, ?_⟩
    rw [hash_len_at]
    omega
  · intro k hk
    refine ⟨⟨m.section_bytes, m.header.namespace_entry_offset + 24 * k,
      m.header.namespace_entry_offset + 24 * m.header.count⟩,
      ns_iterate m.section_bytes k m.header.namespace_entry_offset
        m.header.count hk hnok, ?_⟩
    rw [ns_len_at]
    omega
  · intro it2 hiter
    rw [hash_iterate m.section_bytes m.header.count m.header.hash_entry_offset
      m.header.count (le_refl _) hhok] at hiter
    injection hiter with hiter
    subst hiter
    exact hash_next_none _ _ _ (Or.inl (by omega))
  · intro it2 hiter
    rw [ns_iterate m.section_bytes m.header.count m.header.namespace_entry_offset
      m.header.count (le_refl _) hnok] at hiter
    injection hiter with hiter
    subst hiter
    exact ns_next_none _ _ _ (Or.inl (by omega))

/-- Witness for C8: on the decoded `wit1bs` map, both iterators report
length 1 before consumption. -/
theorem claim_C8_witness :
    (ApiSetHashEntries.len ⟨wit1bs, 28, 36⟩ = wit1map.header.count) ∧
    (ApiSetNamespaceEntries.len ⟨wit1bs, 36, 60⟩ = wit1map.header.count) := by
  have h := claim_C8 wit1bs wit1map ⟨wit1bs, 28, 36⟩ ⟨wit1bs, 36, 60⟩
    (by decide) (by decide) (by decide)
  exact ⟨h.1, h.2.1⟩

theorem readU32_append_left (l r : Bytes) (off : Nat) (h : off + 4 ≤ l.length) :
    readU32 (l ++ r) off = readU32 l off := by
  unfold readU32
  rw [List.getD_append l r 0 off (by omega), List.getD_append l r 0 (off + 1) (by omega),
    List.getD_append l r 0 (off + 2) (by omega),
    List.getD_append l r 0 (off + 3) (by omega)]

/-- C5 counterexample: on a decoded map over an 85899345952-byte buffer,
the namespace entry reachable through the namespace iterator has
`array_count = 0xFFFFFFFF`, so `array_count * 20` overflows any 32-bit
computation, yet `value_entries()` returns Ok — the 64-bit usize range
[0, 85899345900) genuinely fits this buffer, so no error is raised. -/
theorem claim_C5_counterexample :
    ApiSetMap.try_from_apiset_section_bytes c5bs = .ok c5map ∧
    c5map.namespace_entries = .ok ⟨c5bs, 28, 52⟩ ∧
    ApiSetNamespaceEntries.next ⟨c5bs, 28, 52⟩ = some (c5entry, ⟨c5bs, 52, 52⟩) ∧
    U32MOD ≤ 20 * c5entry.header.array_count ∧
    c5entry.value_entries = .ok ⟨c5bs, 0, 85899345900⟩ := by
  have hfront : c5front.length = 52 := by decide
  have hlen : c5bs.length = 85899345952 := by
    unfold c5bs
    rw [List.length_append, List.length_replicate, hfront]
  have hread : ∀ off : Nat, off + 4 ≤ 52 → readU32 c5bs off = readU32 c5front off := by
    intro off hoff
    unfold c5bs
    rw [readU32_append_left c5front _ off (by omega)]
  have r0 : readU32 c5bs 0 = 6 := by rw [hread 0 (by omega)]; decide
  have r4 : readU32 c5bs 4 = 0 := by rw [hread 4 (by omega)]; decide
  have r8 : readU32 c5bs 8 = 0 := by rw [hread 8 (by omega)]; decide
  have r12 : readU32 c5bs 12 = 1 := by rw [hread 12 (by omega)]; decide
  have r16 : readU32 c5bs 16 = 28 := by rw [hread 16 (by omega)]; decide
  have r20 : readU32 c5bs 20 = 0 := by rw [hread 20 (by omega)]; decide
  have r24 : readU32 c5bs 24 = 0 := by rw [hread 24 (by omega)]; decide
  have r28 : readU32 c5bs 28 = 0 := by rw [hread 28 (by omega)]; decide
  have r32 : readU32 c5bs (28 + 4) = 0 := by rw [hread (28 + 4) (by omega)]; decide
  have r36 : readU32 c5bs (28 + 8) = 0 := by rw [hread (28 + 8) (by omega)]; decide
  have r40 : readU32 c5bs (28 + 12) = 0 := by rw [hread (28 + 12) (by omega)]; decide
  have r44 : readU32 c5bs (28 + 16) = 0 := by rw [hread (28 + 16) (by omega)]; decide
  have r48 : readU32 c5bs (28 + 20) = 4294967295 := by
    rw [hread (28 + 20) (by omega)]; decide
  refine ⟨?_, ?_, ?_, by decide, ?_⟩
  · rw [try_from_v6 c5bs (by omega) r0, r0, r4, r8, r12, r16, r20, r24]
    rfl
  · have h := ns_entries_ok c5map
      (show (28 : Nat) + 24 * 1 ≤ c5bs.length from by omega)
    exact h
  · rw [ns_next_some c5bs 28 52 (by omega) (by omega), r28, r32, r36, r40, r44, r48]
    rfl
  · have h := value_entries_ok c5entry
      (show (0 : Nat) + 20 * 4294967295 ≤ c5bs.length from by omega)
    exact h

/-- C5 (amended): the usize arithmetic computing the array byte ranges is
exact (64-bit, no wraparound), so acceptance happens exactly when the true
unwrapped range fits the buffer; consequently, on any section buffer
shorter than 2^32 bytes (every real API set section, offsets being u32),
an `array_count` with `array_count * 20 ≥ 2^32` makes `value_entries()`
return the value-entries-out-of-bounds error, and likewise
`hash_entries()` / `namespace_entries()` when `count * record_size`
overflows 32 bits; a range is never accepted through wraparound. -/
theorem claim_C5 (bs : Bytes) (m : ApiSetMap) (e : ApiSetNamespaceEntry)
    (hdec : ApiSetMap.try_from_apiset_section_bytes bs = .ok m)
    (hsec : e.section_bytes = bs) :
    (bs.length < U32MOD → U32MOD ≤ 20 * e.header.array_count →
      e.value_entries = .error (.ValueEntriesOutOfBounds e.header.array_offset
        (e.header.array_offset + 20 * e.header.array_count) bs.length)) ∧
    (bs.length < U32MOD → U32MOD ≤ 8 * m.header.count →
      m.hash_entries = .error (.HashEntriesOutOfBounds m.header.hash_entry_offset
        (m.header.hash_entry_offset + 8 * m.header.count) bs.length)) ∧
    (bs.length < U32MOD → U32MOD ≤ 24 * m.header.count →
      m.namespace_entries = .error (.NamespaceEntriesOutOfBounds
        m.header.namespace_entry_offset
        (m.header.namespace_entry_offset + 24 * m.header.count) bs.length)) ∧
    (e.value_entries = .ok ⟨bs, e.header.array_offset,
        e.header.array_offset + 20 * e.header.array_count⟩ ↔
      e.header.array_offset + 20 * e.header.array_count ≤ bs.length) := by
  obtain ⟨hsb, -, -, -⟩ := try_from_ok bs m hdec
  refine ⟨?_, ?_, ?_, ?_, ?_⟩
  · intro hl ho
    have hr := value_entries_err e (by rw [hsec]; omega)
    rw [hsec] at hr
    exact hr
  · intro hl ho
    have hr := hash_entries_err m (by rw [hsb]; omega)
    rw [hsb] at hr
    exact hr
  · intro hl ho
    have hr := ns_entries_err m (by rw [hsb]; omega)
    rw [hsb] at hr
    exact hr
  · intro hok
    by_contra hcon
    have hr := value_entries_err e (by rw [hsec]; omega)
    rw [hr] at hok
    exact Except.noConfusion hok
  · intro hle
    have hr := value_entries_ok e (by rw [hsec]; omega)
    rw [hsec] at hr
    exact hr

/-- Witness for C5 (amended): on the 66-byte `wit1bs` buffer, an entry with
`array_count = 0xFFFFFFFF` yields the value-entries-out-of-bounds error
with the exact unwrapped range [0, 85899345900). -/
theorem claim_C5_witness :
    (ApiSetNamespaceEntry.mk wit1bs 36 ⟨0, 60, 6, 2, 0, 4294967295⟩).value_entries =
      .error (.ValueEntriesOutOfBounds 0 85899345900 66) := by
  have h := (claim_C5 wit1bs wit1map
    (ApiSetNamespaceEntry.mk wit1bs 36 ⟨0, 60, 6, 2, 0, 4294967295⟩)
    (by decide) rfl).1 (by decide) (by decide)
  exact h.trans (by decide)

/-- C4: `find_namespace_entry` distinguishes not-found from malformed
data.  It returns `None` when the query has no hyphen; when neither
validated hash entry equals the computed hash; when every equal-hash
entry's index is out of range of the namespace sequence; and when the
matched candidate's decoded name differs from the full untrimmed query.
It returns `Some(Err(_))` when obtaining the hash-entry or namespace-entry
range fails, and propagates the error from reading the matched candidate's
name. -/
theorem claim_C4 (bs : Bytes) (m : ApiSetMap) (q pre suf : List Char)
    (err : NtApiSetError)
    (hdec : ApiSetMap.try_from_apiset_section_bytes bs = .ok m)
    (hlen : bs.length < USIZEMOD) :
    ('-' ∉ q → m.find_namespace_entry q = .notFound) ∧
    (q = pre ++ '-' :: suf → '-' ∉ suf →
      m.hash_entries = .error err →
      m.find_namespace_entry q = .found (.error err)) ∧
    (q = pre ++ '-' :: suf → '-' ∉ suf →
      m.header.hash_entry_offset + 8 * m.header.count ≤ bs.length →
      m.namespace_entries = .error err →
      m.find_namespace_entry q = .found (.error err)) ∧
    (q = pre ++ '-' :: suf → '-' ∉ suf →
      m.header.hash_entry_offset + 8 * m.header.count ≤ bs.length →
      m.header.namespace_entry_offset + 24 * m.header.count ≤ bs.length →
      (∀ k : Nat, k < m.header.count →
        hashAt bs m.header.hash_entry_offset k ≠
          hashFold m.header.hash_factor pre) →
      m.find_namespace_entry q = .notFound) ∧
    (q = pre ++ '-' :: suf → '-' ∉ suf →
      m.header.hash_entry_offset + 8 * m.header.count ≤ bs.length →
      m.header.namespace_entry_offset + 24 * m.header.count ≤ bs.length →
      (∀ k : Nat, k < m.header.count →
        hashAt bs m.header.hash_entry_offset k =
          hashFold m.header.hash_factor pre →
        m.header.count ≤ idxAt bs m.header.hash_entry_offset k) →
      m.find_namespace_entry q = .notFound) ∧
    (q = pre ++ '-' :: suf → '-' ∉ suf →
      m.header.hash_entry_offset + 8 * m.header.count ≤ bs.length →
      m.header.namespace_entry_offset + 24 * m.header.count ≤ bs.length →
      (∀ k : Nat, k < m.header.count →
        hashAt bs m.header.hash_entry_offset k =
          hashFold m.header.hash_factor pre →
        idxAt bs m.header.hash_entry_offset k < m.header.count ∧
        ∃ nb : Bytes,
          (nsEntryAt bs m.header.namespace_entry_offset
            (idxAt bs m.header.hash_entry_offset k)).name = .ok nb ∧
          nb ≠ utf16leEncode q) →
      m.find_namespace_entry q = .notFound) ∧
    (q = pre ++ '-' :: suf → '-' ∉ suf →
      m.header.hash_entry_offset + 8 * m.header.count ≤ bs.length →
      m.header.namespace_entry_offset + 24 * m.header.count ≤ bs.length →
      (∀ i k : Nat, i ≤ k → k < m.header.count →
        hashAt bs m.header.hash_entry_offset i ≤
          hashAt bs m.header.hash_entry_offset k) →
      (∃ k0 : Nat, k0 < m.header.count ∧
        hashAt bs m.header.hash_entry_offset k0 =
          hashFold m.header.hash_factor pre) →
      (∀ k : Nat, k < m.header.count →
        hashAt bs m.header.hash_entry_offset k =
          hashFold m.header.hash_factor pre →
        idxAt bs m.header.hash_entry_offset k < m.header.count ∧
        (nsEntryAt bs m.header.namespace_entry_offset
          (idxAt bs m.header.hash_entry_offset k)).name = .error err) →
      m.find_namespace_entry q = .found (.error err)) := by
  obtain ⟨hsb, -, -, -⟩ := try_from_ok bs m hdec
  subst hsb
  refine ⟨?_, ?_, ?_, ?_, ?_, ?_, ?_⟩
  · intro h
    unfold ApiSetMap.find_namespace_entry
    rw [rsplit_eq_none q '-' h]
  · intro hq hns herr
    unfold ApiSetMap.find_namespace_entry
    rw [hq, rsplit_last pre suf '-' hns]
    dsimp only
    rw [herr]
  · intro hq hns hhb herr
    unfold ApiSetMap.find_namespace_entry
    rw [hq, rsplit_last pre suf '-' hns]
    dsimp only
    rw [hash_entries_ok m hhb]
    dsimp only
    rw [herr]
  · intro hq hns hhb hnb hne
    rw [find_unfold m q pre suf hq hns hhb hnb]
    rcases findLoop_sound m.section_bytes m.header.hash_entry_offset
        m.header.count ⟨m.section_bytes, m.header.namespace_entry_offset,
          m.header.namespace_entry_offset + 24 * m.header.count⟩
        (hashFold m.header.hash_factor pre) q hhb hlen m.header.count 0
        ((m.header.count : Int) - 1) (by omega) (by omega) with
      hnf | ⟨k, hk, hkh, heq⟩
    · exact hnf
    · exact absurd hkh (hne k hk)
  · intro hq hns hhb hnb hoob
    rw [find_unfold m q pre suf hq hns hhb hnb]
    rcases findLoop_sound m.section_bytes m.header.hash_entry_offset
        m.header.count ⟨m.section_bytes, m.header.namespace_entry_offset,
          m.header.namespace_entry_offset + 24 * m.header.count⟩
        (hashFold m.header.hash_factor pre) q hhb hlen m.header.count 0
        ((m.header.count : Int) - 1) (by omega) (by omega) with
      hnf | ⟨k, hk, hkh, heq⟩
    · exact hnf
    · rw [heq]
      exact equalBranch_oob m.section_bytes m.header.namespace_entry_offset
        m.header.count q _ (hoob k hk hkh)
  · intro hq hns hhb hnb hmis
    rw [find_unfold m q pre suf hq hns hhb hnb]
    rcases findLoop_sound m.section_bytes m.header.hash_entry_offset
        m.header.count ⟨m.section_bytes, m.header.namespace_entry_offset,
          m.header.namespace_entry_offset + 24 * m.header.count⟩
        (hashFold m.header.hash_factor pre) q hhb hlen m.header.count 0
        ((m.header.count : Int) - 1) (by omega) (by omega) with
      hnf | ⟨k, hk, hkh, heq⟩
    · exact hnf
    · obtain ⟨hjc, nb, hname, hneq⟩ := hmis k hk hkh
      rw [heq, equalBranch_in m.section_bytes m.header.namespace_entry_offset
        m.header.count q _ hjc hnb hlen, hname]
      dsimp only
      rw [if_neg hneq]
  · intro hq hns hhb hnb hsorted hex hprop
    obtain ⟨k0, hk0c, hk0h⟩ := hex
    rw [find_unfold m q pre suf hq hns hhb hnb]
    obtain ⟨k, hk, hkh, -, -, heq⟩ := findLoop_complete m.section_bytes
      m.header.hash_entry_offset m.header.count
      ⟨m.section_bytes, m.header.namespace_entry_offset,
        m.header.namespace_entry_offset + 24 * m.header.count⟩
      (hashFold m.header.hash_factor pre) q hhb hlen hsorted m.header.count 0
      ((m.header.count : Int) - 1) k0 (by omega) (by omega) hk0c hk0h
      (by omega) (by omega) (by omega)
    obtain ⟨hjc, hname⟩ := hprop k hk hkh
    rw [heq, equalBranch_in m.section_bytes m.header.namespace_entry_offset
      m.header.count q _ hjc hnb hlen, hname]

/-- Witness for C4: on the decoded `wit1bs` map, a hyphen-free query
returns `None` (not found, not an error). -/
theorem claim_C4_witness : wit1map.find_namespace_entry ['z'] = .notFound :=
  (claim_C4 wit1bs wit1map ['z'] [] [] .ApiSetSectionNotFound (by decide)
    (by decide)).1 (by decide)

/-- C1: round trip.  For every well-formed map (decode succeeded, both
array ranges validated, hash entries strictly ascending by hash, each hash
entry's hash the wrapping fold of the corresponding namespace entry's name
up to but not including its last hyphen, each hash entry's index the
0-based position of that entry, every namespace entry covered by some hash
entry) and every namespace entry whose name is non-empty, made of
lowercase letters, digits and hyphens, and contains a hyphen,
`find_namespace_entry` on that name returns `Some(Ok(e))` with `e`'s
decoded name equal to the queried name. -/
theorem claim_C1 (bs : Bytes) (m : ApiSetMap) (names : Nat → List Char)
    (j : Nat)
    (hdec : ApiSetMap.try_from_apiset_section_bytes bs = .ok m)
    (hlen : bs.length < USIZEMOD)
    (hhb : m.header.hash_entry_offset + 8 * m.header.count ≤ bs.length)
    (hnb : m.header.namespace_entry_offset + 24 * m.header.count ≤ bs.length)
    (hsorted : ∀ i k : Nat, i < k → k < m.header.count →
      hashAt bs m.header.hash_entry_offset i <
        hashAt bs m.header.hash_entry_offset k)
    (hnames : ∀ i : Nat, i < m.header.count →
      (nsEntryAt bs m.header.namespace_entry_offset i).name =
        .ok (utf16leEncode (names i)))
    (hhash : ∀ i : Nat, i < m.header.count →
      ∃ pre suf : List Char,
        names (idxAt bs m.header.hash_entry_offset i) = pre ++ '-' :: suf ∧
        '-' ∉ suf ∧
        hashAt bs m.header.hash_entry_offset i =
          hashFold m.header.hash_factor pre)
    (hsurj : ∀ i : Nat, i < m.header.count →
      ∃ k : Nat, k < m.header.count ∧ idxAt bs m.header.hash_entry_offset k = i)
    (hj : j < m.header.count) (hne : names j ≠ [])
    (hchars : ∀ ch ∈ names j, ch.isLower = true ∨ ch.isDigit = true ∨ ch = '-') :
    ∃ e : ApiSetNamespaceEntry,
      m.find_namespace_entry (names j) = .found (.ok e) ∧
      e.name = .ok (utf16leEncode (names j)) := by
  obtain ⟨hsb, -, -, -⟩ := try_from_ok bs m hdec
  subst hsb
  obtain ⟨i0, hi0c, hi0idx⟩ := hsurj j hj
  obtain ⟨pre, suf, hdn, hnosuf, hh0⟩ := hhash i0 hi0c
  rw [hi0idx] at hdn
  have hfind := find_unfold m (names j) pre suf hdn hnosuf hhb hnb
  have hsorted2 : ∀ i k : Nat, i ≤ k → k < m.header.count →
      hashAt m.section_bytes m.header.hash_entry_offset i ≤
        hashAt m.section_bytes m.header.hash_entry_offset k := by
    intro i k hik hk
    rcases Nat.lt_or_eq_of_le hik with h | h
    · exact le_of_lt (hsorted i k h hk)
    · rw [h]
  obtain ⟨k, hkc, hkh, -, -, heq⟩ := findLoop_complete m.section_bytes
    m.header.hash_entry_offset m.header.count
    ⟨m.section_bytes, m.header.namespace_entry_offset,
      m.header.namespace_entry_offset + 24 * m.header.count⟩
    (hashFold m.header.hash_factor pre) (names j) hhb hlen hsorted2
    m.header.count 0 ((m.header.count : Int) - 1) i0 (by omega) (by omega)
    hi0c hh0 (by omega) (by omega) (by omega)
  have hki0 : k = i0 := by
    rcases Nat.lt_trichotomy k i0 with h | h | h
    · have := hsorted k i0 h hi0c
      omega
    · exact h
    · have := hsorted i0 k h hkc
      omega
  subst hki0
  rw [hi0idx] at heq
  refine ⟨nsEntryAt m.section_bytes m.header.namespace_entry_offset j, ?_,
    hnames j hj⟩
  rw [hfind, heq, equalBranch_in m.section_bytes m.header.namespace_entry_offset
    m.header.count (names j) j hj hnb hlen, hnames j hj]
  dsimp only
  rw [if_pos rfl]

/-- Witness for C1: on the concrete one-entry map `wit1bs` (name "a-b",
hash 97, index 0), the lookup of "a-b" returns that entry with its decoded
name equal to the query. -/
theorem claim_C1_witness :
    ∃ e : ApiSetNamespaceEntry,
      wit1map.find_namespace_entry ['a', '-', 'b'] = .found (.ok e) ∧
      e.name = .ok (utf16leEncode ['a', '-', 'b']) := by
  have h := claim_C1 wit1bs wit1map (fun _ => ['a', '-', 'b']) 0 (by decide)
    (by decide) (by decide) (by decide)
    (by
      intro i k hik hk
      have hc : wit1map.header.count = 1 := rfl
      omega)
    (by decide)
    (by
      intro i hi
      have hc : wit1map.header.count = 1 := rfl
      have hi0 : i = 0 := by omega
      subst hi0
      exact ⟨['a'], ['b'], by decide, by decide, by decide⟩)
    (by
      intro i hi
      have hc : wit1map.header.count = 1 := rfl
      have hi0 : i = 0 := by omega
      subst hi0
      exact ⟨0, by decide, by decide⟩)
    (by decide) (by decide) (by decide)
  exact h

/-! Agreement lemmas for C10: two buffers of equal length that agree
outside bytes 4..8 (the header's size field) behave identically wherever
no data is read from that region. -/

theorem readU32_agree (b1 b2 : Bytes)
    (hagree : ∀ i : Nat, i < 4 ∨ 8 ≤ i → b1.getD i 0 = b2.getD i 0)
    (off : Nat) (h : off = 0 ∨ 8 ≤ off) : readU32 b1 off = readU32 b2 off := by
  unfold readU32
  rw [hagree off (by omega), hagree (off + 1) (by omega),
    hagree (off + 2) (by omega), hagree (off + 3) (by omega)]

theorem slice_agree (b1 b2 : Bytes) (hlen : b1.length = b2.length)
    (hagree : ∀ i : Nat, i < 4 ∨ 8 ≤ i → b1.getD i 0 = b2.getD i 0)
    (s n : Nat) (hs : 8 ≤ s) :
    (b1.drop s).take n = (b2.drop s).take n := by
  apply List.ext_getElem
  · simp only [List.length_take, List.length_drop, hlen]
  · intro i h1 h2
    have hin : i < n := by
      simp only [List.length_take, List.length_drop] at h1
      omega
    calc ((b1.drop s).take n)[i]
        = ((b1.drop s).take n).getD i 0 := (List.getD_eq_getElem _ 0 h1).symm
      _ = b1.getD (s + i) 0 := getD_slice b1 s n i hin
      _ = b2.getD (s + i) 0 := hagree (s + i) (by omega)
      _ = ((b2.drop s).take n).getD i 0 := (getD_slice b2 s n i hin).symm
      _ = ((b2.drop s).take n)[i] := List.getD_eq_getElem _ 0 h2

theorem hashAt_agree (b1 b2 : Bytes)
    (hagree : ∀ i : Nat, i < 4 ∨ 8 ≤ i → b1.getD i 0 = b2.getD i 0)
    (hs k : Nat) (hhs : 8 ≤ hs) : hashAt b2 hs k = hashAt b1 hs k := by
  unfold hashAt
  exact (readU32_agree b1 b2 hagree (hs + 8 * k) (Or.inr (by omega))).symm

theorem idxAt_agree (b1 b2 : Bytes)
    (hagree : ∀ i : Nat, i < 4 ∨ 8 ≤ i → b1.getD i 0 = b2.getD i 0)
    (hs k : Nat) (hhs : 8 ≤ hs) : idxAt b2 hs k = idxAt b1 hs k := by
  unfold idxAt
  exact (readU32_agree b1 b2 hagree (hs + 8 * k + 4) (Or.inr (by omega))).symm

theorem nsHeaderAt_agree (b1 b2 : Bytes)
    (hagree : ∀ i : Nat, i < 4 ∨ 8 ≤ i → b1.getD i 0 = b2.getD i 0)
    (ns j : Nat) (hns : 8 ≤ ns) : nsHeaderAt b2 ns j = nsHeaderAt b1 ns j := by
  unfold nsHeaderAt
  rw [readU32_agree b1 b2 hagree (ns + 24 * j) (Or.inr (by omega)),
    readU32_agree b1 b2 hagree (ns + 24 * j + 4) (Or.inr (by omega)),
    readU32_agree b1 b2 hagree (ns + 24 * j + 8) (Or.inr (by omega)),
    readU32_agree b1 b2 hagree (ns + 24 * j + 12) (Or.inr (by omega)),
    readU32_agree b1 b2 hagree (ns + 24 * j + 16) (Or.inr (by omega)),
    readU32_agree b1 b2 hagree (ns + 24 * j + 20) (Or.inr (by omega))]

theorem ns_name_bufeq (b1 b2 : Bytes) (hlen : b1.length = b2.length)
    (hagree : ∀ i : Nat, i < 4 ∨ 8 ≤ i → b1.getD i 0 = b2.getD i 0)
    (p : Nat) (hd : ApiSetNamespaceEntryHeader) (hno : 8 ≤ hd.name_offset) :
    (ApiSetNamespaceEntry.mk b1 p hd).name =
      (ApiSetNamespaceEntry.mk b2 p hd).name := by
  by_cases hfit : hd.name_offset + hd.name_length ≤ b1.length
  · rw [ns_name_ok (ApiSetNamespaceEntry.mk b1 p hd) hfit,
      ns_name_ok (ApiSetNamespaceEntry.mk b2 p hd) (by dsimp only; omega)]
    dsimp only
    rw [slice_agree b1 b2 hlen hagree hd.name_offset hd.name_length hno]
  · rw [ns_name_err (ApiSetNamespaceEntry.mk b1 p hd) (by dsimp only; omega),
      ns_name_err (ApiSetNamespaceEntry.mk b2 p hd) (by dsimp only; omega)]
    dsimp only
    rw [hlen]

theorem equalBranch_observe_agree (b1 b2 : Bytes) (hlen : b1.length = b2.length)
    (hagree : ∀ i : Nat, i < 4 ∨ 8 ≤ i → b1.getD i 0 = b2.getD i 0)
    (husize : b1.length < USIZEMOD) (ns c : Nat) (q : List Char) (j : Nat)
    (hns : 8 ≤ ns) (hnb : ns + 24 * c ≤ b1.length)
    (hname8 : ∀ i : Nat, i < c → 8 ≤ (nsHeaderAt b1 ns i).name_offset) :
    (equalBranch ⟨b1, ns, ns + 24 * c⟩ q j).observe =
      (equalBranch ⟨b2, ns, ns + 24 * c⟩ q j).observe := by
  by_cases hj : j < c
  · rw [equalBranch_in b1 ns c q j hj hnb husize,
      equalBranch_in b2 ns c q j hj (by omega) (by omega)]
    unfold nsEntryAt
    rw [nsHeaderAt_agree b1 b2 hagree ns j hns,
      ← ns_name_bufeq b1 b2 hlen hagree (ns + 24 * j) (nsHeaderAt b1 ns j)
        (hname8 j hj)]
    cases hcase : (ApiSetNamespaceEntry.mk b1 (ns + 24 * j)
        (nsHeaderAt b1 ns j)).name with
    | error e => rfl
    | ok nb =>
      dsimp only
      by_cases heq2 : nb = utf16leEncode q
      · rw [if_pos heq2, if_pos heq2]
        dsimp only [FindResult.observe]
        rw [ns_name_bufeq b1 b2 hlen hagree (ns + 24 * j) (nsHeaderAt b1 ns j)
          (hname8 j hj)]
      · rw [if_neg heq2, if_neg heq2]
  · rw [equalBranch_oob b1 ns c q j (by omega), equalBranch_oob b2 ns c q j (by omega)]

theorem findLoop_observe_agree (b1 b2 : Bytes) (hlen : b1.length = b2.length)
    (hagree : ∀ i : Nat, i < 4 ∨ 8 ≤ i → b1.getD i 0 = b2.getD i 0)
    (husize : b1.length < USIZEMOD) (hs ns c : Nat) (h : Nat) (q : List Char)
    (hhs : 8 ≤ hs) (hns : 8 ≤ ns) (hhb : hs + 8 * c ≤ b1.length)
    (hnb : ns + 24 * c ≤ b1.length)
    (hname8 : ∀ i : Nat, i < c → 8 ≤ (nsHeaderAt b1 ns i).name_offset) :
    ∀ (fuel : Nat) (left right : Int), 0 ≤ left → right < (c : Int) →
    (findLoop ⟨b1, hs, hs + 8 * c⟩ ⟨b1, ns, ns + 24 * c⟩ h q fuel
      left right).observe =
    (findLoop ⟨b2, hs, hs + 8 * c⟩ ⟨b2, ns, ns + 24 * c⟩ h q fuel
      left right).observe := by
  intro fuel
  induction fuel with
  | zero =>
    intro left right hl hr
    rfl
  | succ fuel ih =>
    intro left right hl hr
    by_cases hlr : left ≤ right
    · have hmid : Int.tdiv (left + right) 2 = (left + right) / 2 :=
        Int.tdiv_eq_ediv (by omega) (by omega)
      have hmc : ((left + right) / 2).toNat < c := by omega
      unfold findLoop
      rw [if_pos hlr, if_pos hlr]
      dsimp only
      rw [hmid, hash_nth_some b1 hs c (((left + right) / 2).toNat) hmc hhb husize,
        hash_nth_some b2 hs c (((left + right) / 2).toNat) hmc (by omega)
          (by omega)]
      dsimp only [hashEntryAt]
      rw [hashAt_agree b1 b2 hagree hs (((left + right) / 2).toNat) hhs,
        idxAt_agree b1 b2 hagree hs (((left + right) / 2).toNat) hhs]
      by_cases hh2 : hashAt b1 hs (((left + right) / 2).toNat) = h
      · rw [if_pos hh2, if_pos hh2]
        exact equalBranch_observe_agree b1 b2 hlen hagree husize ns c q
          (idxAt b1 hs (((left + right) / 2).toNat)) hns hnb hname8
      · rw [if_neg hh2, if_neg hh2]
        by_cases hlt : hashAt b1 hs (((left + right) / 2).toNat) < h
        · rw [if_pos hlt, if_pos hlt]
          exact ih ((left + right) / 2 + 1) right (by omega) hr
        · rw [if_neg hlt, if_neg hlt]
          exact ih left ((left + right) / 2 - 1) hl (by omega)
    · unfold findLoop
      rw [if_neg hlr, if_neg hlr]

theorem hash_obs_eq (m1 m2 : ApiSetMap)
    (ho : m1.header.hash_entry_offset = m2.header.hash_entry_offset)
    (hc : m1.header.count = m2.header.count)
    (hl : m1.section_bytes.length = m2.section_bytes.length) :
    hashEntriesObs m1.hash_entries = hashEntriesObs m2.hash_entries := by
  by_cases hfit : m1.header.hash_entry_offset + 8 * m1.header.count ≤
      m1.section_bytes.length
  · rw [hash_entries_ok m1 hfit, hash_entries_ok m2 (by omega)]
    unfold hashEntriesObs
    dsimp only [Except.map]
    rw [ho, hc]
  · rw [hash_entries_err m1 (by omega), hash_entries_err m2 (by omega)]
    unfold hashEntriesObs
    dsimp only [Except.map]
    rw [ho, hc, hl]

theorem ns_obs_eq (m1 m2 : ApiSetMap)
    (ho : m1.header.namespace_entry_offset = m2.header.namespace_entry_offset)
    (hc : m1.header.count = m2.header.count)
    (hl : m1.section_bytes.length = m2.section_bytes.length) :
    nsEntriesObs m1.namespace_entries = nsEntriesObs m2.namespace_entries := by
  by_cases hfit : m1.header.namespace_entry_offset + 24 * m1.header.count ≤
      m1.section_bytes.length
  · rw [ns_entries_ok m1 hfit, ns_entries_ok m2 (by omega)]
    unfold nsEntriesObs
    dsimp only [Except.map]
    rw [ho, hc]
  · rw [ns_entries_err m1 (by omega), ns_entries_err m2 (by omega)]
    unfold nsEntriesObs
    dsimp only [Except.map]
    rw [ho, hc, hl]

/-- C10 counterexample: two 56-byte buffers that have equal length and
differ only in bytes 4..8 (the header's size field) both decode, yet
`find_namespace_entry` on the same query returns a found entry on one and
`None` on the other, because `hash_entry_offset = 0` makes the hash-entry
array overlap the header, so the size field is read back as the hash
entry's index. -/
theorem claim_C10_counterexample :
    c10b1.length = c10b2.length ∧
    (∀ i : Nat, i < 4 ∨ 8 ≤ i → c10b1.getD i 0 = c10b2.getD i 0) ∧
    ApiSetMap.try_from_apiset_section_bytes c10b1 = .ok c10map1 ∧
    ApiSetMap.try_from_apiset_section_bytes c10b2 = .ok c10map2 ∧
    c10map1.find_namespace_entry [Char.ofNat 6, '-'] = .found (.ok c10entry) ∧
    c10map2.find_namespace_entry [Char.ofNat 6, '-'] = .notFound := by
  refine ⟨by decide, ?_, by decide, by decide, by decide, by decide⟩
  have hb : ∀ i : Nat, i < 56 → i < 4 ∨ 8 ≤ i → c10b1.getD i 0 = c10b2.getD i 0 := by
    decide
  intro i hi
  by_cases h56 : i < 56
  · exact hb i h56 hi
  · rw [List.getD_eq_default _ _ (by
        have : c10b1.length = 56 := by decide
        omega),
      List.getD_eq_default _ _ (by
        have : c10b2.length = 56 := by decide
        omega)]

/-- C10 (amended): the header's size field (bytes 4..8) is dead input for
decoding and for every access whose data ranges avoid it.  For any two
equal-length buffers differing only in bytes 4..8: decode succeeds or
fails identically with identical errors; when both succeed, `flags()` and
the validation results of `hash_entries()` / `namespace_entries()` (range
or error) are identical; and if additionally the hash-entry array, the
namespace-entry array and every namespace entry's name lie at offsets ≥ 8
(so that no lookup reads the size field as data — the counterexample shows
this proviso is necessary), `find_namespace_entry` returns observationally
identical results on any query. -/
theorem claim_C10 (b1 b2 : Bytes) (q : List Char)
    (hlen : b1.length = b2.length)
    (hagree : ∀ i : Nat, i < 4 ∨ 8 ≤ i → b1.getD i 0 = b2.getD i 0)
    (husize : b1.length < USIZEMOD) :
    ((ApiSetMap.try_from_apiset_section_bytes b1).isOk =
      (ApiSetMap.try_from_apiset_section_bytes b2).isOk) ∧
    (∀ err : NtApiSetError,
      ApiSetMap.try_from_apiset_section_bytes b1 = .error err ↔
      ApiSetMap.try_from_apiset_section_bytes b2 = .error err) ∧
    (∀ m1 m2 : ApiSetMap,
      ApiSetMap.try_from_apiset_section_bytes b1 = .ok m1 →
      ApiSetMap.try_from_apiset_section_bytes b2 = .ok m2 →
      m1.flags = m2.flags ∧
      hashEntriesObs m1.hash_entries = hashEntriesObs m2.hash_entries ∧
      nsEntriesObs m1.namespace_entries = nsEntriesObs m2.namespace_entries ∧
      (8 ≤ m1.header.hash_entry_offset → 8 ≤ m1.header.namespace_entry_offset →
        (∀ i : Nat, i < m1.header.count →
          8 ≤ (nsHeaderAt b1 m1.header.namespace_entry_offset i).name_offset) →
        (m1.find_namespace_entry q).observe =
          (m2.find_namespace_entry q).observe)) := by
  have hv : readU32 b1 0 = readU32 b2 0 := readU32_agree b1 b2 hagree 0 (Or.inl rfl)
  by_cases h28 : 28 ≤ b1.length
  · by_cases hv6 : readU32 b1 0 = 6
    · have d1 := try_from_v6 b1 h28 hv6
      have d2 := try_from_v6 b2 (by omega) (by rw [← hv]; exact hv6)
      refine ⟨by rw [d1, d2]; rfl, ?_, ?_⟩
      · intro err
        rw [d1, d2]
        constructor <;> intro hx <;> exact Except.noConfusion hx
      · intro m1 m2 hdec1 hdec2
        obtain ⟨hsb1, -, -, hhdr1⟩ := try_from_ok b1 m1 hdec1
        obtain ⟨hsb2, -, -, hhdr2⟩ := try_from_ok b2 m2 hdec2
        have eflags : m1.header.flags = m2.header.flags := by
          rw [hhdr1, hhdr2]
          exact readU32_agree b1 b2 hagree 8 (by omega)
        have ecn : m1.header.count = m2.header.count := by
          rw [hhdr1, hhdr2]
          exact readU32_agree b1 b2 hagree 12 (by omega)
        have eno : m1.header.namespace_entry_offset =
            m2.header.namespace_entry_offset := by
          rw [hhdr1, hhdr2]
          exact readU32_agree b1 b2 hagree 16 (by omega)
        have eho : m1.header.hash_entry_offset = m2.header.hash_entry_offset := by
          rw [hhdr1, hhdr2]
          exact readU32_agree b1 b2 hagree 20 (by omega)
        have efa : m1.header.hash_factor = m2.header.hash_factor := by
          rw [hhdr1, hhdr2]
          exact readU32_agree b1 b2 hagree 24 (by omega)
        have elen : m1.section_bytes.length = m2.section_bytes.length := by
          rw [hsb1, hsb2]
          exact hlen
        refine ⟨?_, hash_obs_eq m1 m2 eho ecn elen, ns_obs_eq m1 m2 eno ecn elen,
          ?_⟩
        · unfold ApiSetMap.flags
          rw [eflags]
        · intro hhs8 hns8 hname8
          cases hrs : rsplitOnceList q '-' with
          | none =>
            unfold ApiSetMap.find_namespace_entry
            rw [hrs]
          | some pr =>
            obtain ⟨pre, suf⟩ := pr
            unfold ApiSetMap.find_namespace_entry
            rw [hrs]
            dsimp only
            rw [efa]
            by_cases hhfit : m1.header.hash_entry_offset +
                8 * m1.header.count ≤ b1.length
            · rw [hash_entries_ok m1 (by rw [hsb1]; exact hhfit),
                hash_entries_ok m2 (by rw [hsb2]; omega)]
              dsimp only
              by_cases hnfit : m1.header.namespace_entry_offset +
                  24 * m1.header.count ≤ b1.length
              · rw [ns_entries_ok m1 (by rw [hsb1]; exact hnfit),
                  ns_entries_ok m2 (by rw [hsb2]; omega)]
                dsimp only
                rw [hsb1, hsb2, eho, eno, ecn, hash_len_count, hash_len_count]
                exact findLoop_observe_agree b1 b2 hlen hagree husize
                  m2.header.hash_entry_offset m2.header.namespace_entry_offset
                  m2.header.count
                  (hashFold m2.header.hash_factor pre) q (by omega) (by omega)
                  (by omega) (by omega)
                  (by
                    intro i hi
                    have := hname8 i (by omega)
                    rw [eno] at this
                    exact this)
                  m2.header.count 0 ((m2.header.count : Int) - 1) (by omega)
                  (by omega)
              · rw [ns_entries_err m1 (by rw [hsb1]; omega),
                  ns_entries_err m2 (by rw [hsb2]; omega)]
                dsimp only
                rw [hsb1, hsb2, hlen, eno, ecn]
            · rw [hash_entries_err m1 (by rw [hsb1]; omega),
                hash_entries_err m2 (by rw [hsb2]; omega)]
              dsimp only
              rw [hsb1, hsb2, hlen, eho, ecn]
    · have d1 := try_from_badversion b1 h28 hv6
      have d2 := try_from_badversion b2 (by omega) (by rw [← hv]; exact hv6)
      refine ⟨by rw [d1, d2]; rfl, ?_, ?_⟩
      · intro err
        rw [d1, d2, hv]
      · intro m1 m2 hdec1 hdec2
        rw [d1] at hdec1
        exact absurd hdec1 (fun hx => Except.noConfusion hx)
  · have d1 := try_from_small b1 (by omega)
    have d2 := try_from_small b2 (by omega)
    refine ⟨by rw [d1, d2]; rfl, ?_, ?_⟩
    · intro err
      rw [d1, d2, hlen]
    · intro m1 m2 hdec1 hdec2
      rw [d1] at hdec1
      exact absurd hdec1 (fun hx => Except.noConfusion hx)

/-- Witness for C10 (amended): two buffers apart only in the size field
(the well-formed `wit1bs` map, arrays and name at offsets ≥ 8) give
observationally identical lookups. -/
theorem claim_C10_witness :
    (wit1map.find_namespace_entry ['a', '-', 'b']).observe =
      (wit10map.find_namespace_entry ['a', '-', 'b']).observe := by
  have h := (claim_C10 wit1bs wit10bs ['a', '-', 'b'] (by decide)
    (by
      have hb : ∀ i : Nat, i < 66 → i < 4 ∨ 8 ≤ i →
          wit1bs.getD i 0 = wit10bs.getD i 0 := by decide
      intro i hi
      by_cases h66 : i < 66
      · exact hb i h66 hi
      · rw [List.getD_eq_default _ _ (by
            have he1 : wit1bs.length = 66 := by decide
            omega),
          List.getD_eq_default _ _ (by
            have he2 : wit10bs.length = 66 := by decide
            omega)])
    (by decide)).2.2 wit1map wit10map (by decide) (by decide)
  exact h.2.2.2 (by decide) (by decide) (by decide)

end NtApiSet
